import Mathlib

/-!
go-cache: a TTL cache over pluggable map backends, and an LRU cache.

A shallow embedding of `cache.go`, `cache_map.go` and `lru-cache.go`.

Modelling conventions

* A Go `map[string]T` (and the `sync.Map` / `cmap.ConcurrentMap` containers, which
  offer the same sequential key/value behaviour) is an association list with
  pairwise distinct keys (`GoMap`).  Iteration visits the entries in list order;
  every theorem quantifies over all maps, hence over all iteration orders.
* `interface{}` payloads are `Option α`: `none` is Go's `nil`.
* `time.Now().UnixNano()` is an explicit argument `now : Int` of every method that
  reads the clock once; the GC loop of the LRU cache reads it once per visited entry
  and takes a reading per key (`clock : String → Int`).  `int64` arithmetic wraps
  (`wrapInt64`).  Theorems that depend on the stored expiration being positive assume
  a clock at or after the Unix epoch.
* Every method that may write returns the state after the call.
* The methods are embedded with their sequential behaviour; one janitor tick is one
  `DeleteExpired` call and one GC tick is one `gcPass`.  For the concurrency claims
  the locking discipline of `RwmMap` (which lock each method holds) and the two
  critical sections of `LRUCache.Get` are modelled on their own; the scheduler is
  not.
-/

namespace GoCache

/-! ## Machine integers and `time.Time` -/

/-- Largest `int64`. -/
def maxInt64 : Int := 2 ^ 63 - 1

/-- Smallest `int64`. -/
def minInt64 : Int := -(2 ^ 63)

/-- Two's-complement wrap of a mathematical integer into `int64`. -/
def wrapInt64 (x : Int) : Int := (x + 2 ^ 63) % 2 ^ 64 - 2 ^ 63

/-- Two's-complement wrap of a mathematical integer into `int32`. -/
def wrapInt32 (x : Int) : Int := (x + 2 ^ 31) % 2 ^ 32 - 2 ^ 31

/-- Seconds between January 1 of year 1 and the Unix epoch (`unixToInternal`
in package `time`). -/
def unixToInternal : Int := 62135596800

/-- A `time.Time` without monotonic reading: seconds since January 1 of year 1
and nanoseconds within the second.  The zero value is `time.Time{}`. -/
structure Time where
  sec : Int
  nsec : Int
deriving DecidableEq, Repr

/-- The value `time.Time{}`. -/
def Time.zero : Time := ⟨0, 0⟩

/-- Go `time.Unix(sec, nsec)`: normalises `nsec` into `[0, 1e9)` (Go's `/`
truncates toward zero) and shifts to the internal epoch. -/
def Time.Unix (sec nsec : Int) : Time :=
  if nsec < 0 ∨ nsec ≥ 1000000000 then
    let n := nsec.tdiv 1000000000
    let sec1 := wrapInt64 (sec + n)
    let nsec1 := nsec - n * 1000000000
    if nsec1 < 0 then
      ⟨wrapInt64 (sec1 - 1) + unixToInternal, nsec1 + 1000000000⟩
    else
      ⟨sec1 + unixToInternal, nsec1⟩
  else
    ⟨sec + unixToInternal, nsec⟩

/-- Go `t.UnixNano()`. -/
def Time.UnixNano (t : Time) : Int :=
  wrapInt64 ((t.sec - unixToInternal) * 1000000000 + t.nsec)

/-- Go `t.IsZero()`. -/
def Time.IsZero (t : Time) : Bool := t.sec == 0 && t.nsec == 0

/-! ## Go maps -/

/-- A Go map with string keys: an association list with distinct keys. -/
abbrev GoMap (β : Type) : Type := AList (fun _ : String => β)

/-! ## `cache_map.go`: the storage backends -/

/-- The `RwmMap` backend: one map behind a read/write mutex. -/
structure RwmMap (β : Type) where
  items : GoMap β

/-- The `SyncMap` backend: a `sync.Map` and a separate `atomic.Int32` counter. -/
structure SyncMap (β : Type) where
  items : GoMap β
  count : Int

/-- The `ConcurrentMap` backend: a sharded `cmap.ConcurrentMap`. -/
structure ConcurrentMap (β : Type) where
  items : GoMap β

/-- `NewRwmMap`. -/
def NewRwmMap {β : Type} : RwmMap β := ⟨∅⟩

/-- `NewSyncMap`. -/
def NewSyncMap {β : Type} : SyncMap β := ⟨∅, 0⟩

/-- `NewConcurrentMap`. -/
def NewConcurrentMap {β : Type} : ConcurrentMap β := ⟨∅⟩

/-- `RwmMap.Get`. -/
def RwmMap.Get {β : Type} (m : RwmMap β) (k : String) : Option β × Bool :=
  match m.items.lookup k with
  | none => (none, false)
  | some item => (some item, true)

/-- `RwmMap.Set`. -/
def RwmMap.Set {β : Type} (m : RwmMap β) (k : String) (x : β) : RwmMap β :=
  { m with items := m.items.insert k x }

/-- `RwmMap.Delete`. -/
def RwmMap.Delete {β : Type} (m : RwmMap β) (k : String) : RwmMap β :=
  { m with items := m.items.erase k }

/-- `RwmMap.Count`. -/
def RwmMap.Count {β : Type} (m : RwmMap β) : Int := m.items.entries.length

/-- `RwmMap.Flush`. -/
def RwmMap.Flush {β : Type} (m : RwmMap β) : RwmMap β :=
  { m with items := ∅ }

/-- `SyncMap.Get`. -/
def SyncMap.Get {β : Type} (m : SyncMap β) (k : String) : Option β × Bool :=
  match m.items.lookup k with
  | none => (none, false)
  | some item => (some item, true)

/-- `SyncMap.Set`: stores, then adds one to the counter unconditionally. -/
def SyncMap.Set {β : Type} (m : SyncMap β) (k : String) (x : β) : SyncMap β :=
  { items := m.items.insert k x, count := wrapInt32 (m.count + 1) }

/-- `SyncMap.Delete`: deletes, then subtracts one from the counter
unconditionally. -/
def SyncMap.Delete {β : Type} (m : SyncMap β) (k : String) : SyncMap β :=
  { items := m.items.erase k, count := wrapInt32 (m.count + -1) }

/-- `SyncMap.Count`. -/
def SyncMap.Count {β : Type} (m : SyncMap β) : Int := m.count

/-- `SyncMap.Flush`. -/
def SyncMap.Flush {β : Type} (_m : SyncMap β) : SyncMap β :=
  { items := ∅, count := 0 }

/-- `ConcurrentMap.Get`. -/
def ConcurrentMap.Get {β : Type} (m : ConcurrentMap β) (k : String) : Option β × Bool :=
  match m.items.lookup k with
  | none => (none, false)
  | some item => (some item, true)

/-- `ConcurrentMap.Set`. -/
def ConcurrentMap.Set {β : Type} (m : ConcurrentMap β) (k : String) (x : β) :
    ConcurrentMap β :=
  { m with items := m.items.insert k x }

/-- `ConcurrentMap.Delete`. -/
def ConcurrentMap.Delete {β : Type} (m : ConcurrentMap β) (k : String) : ConcurrentMap β :=
  { m with items := m.items.erase k }

/-- `ConcurrentMap.Count`. -/
def ConcurrentMap.Count {β : Type} (m : ConcurrentMap β) : Int := m.items.entries.length

/-- `ConcurrentMap.Flush`. -/
def ConcurrentMap.Flush {β : Type} (m : ConcurrentMap β) : ConcurrentMap β :=
  { m with items := ∅ }

/-- The `CacheMap` interface: one of the three implementations. -/
inductive CacheMap (β : Type) where
  | rwm (m : RwmMap β)
  | sync (m : SyncMap β)
  | concurrent (m : ConcurrentMap β)

/-- The key/value content held by a backend. -/
def CacheMap.items {β : Type} : CacheMap β → GoMap β
  | .rwm m => m.items
  | .sync m => m.items
  | .concurrent m => m.items

/-- Interface method `Get`. -/
def CacheMap.Get {β : Type} : CacheMap β → String → Option β × Bool
  | .rwm m, k => m.Get k
  | .sync m, k => m.Get k
  | .concurrent m, k => m.Get k

/-- Interface method `Set`. -/
def CacheMap.Set {β : Type} : CacheMap β → String → β → CacheMap β
  | .rwm m, k, x => .rwm (m.Set k x)
  | .sync m, k, x => .sync (m.Set k x)
  | .concurrent m, k, x => .concurrent (m.Set k x)

/-- Interface method `Delete`. -/
def CacheMap.Delete {β : Type} : CacheMap β → String → CacheMap β
  | .rwm m, k => .rwm (m.Delete k)
  | .sync m, k => .sync (m.Delete k)
  | .concurrent m, k => .concurrent (m.Delete k)

/-- Interface method `Count`. -/
def CacheMap.Count {β : Type} : CacheMap β → Int
  | .rwm m => m.Count
  | .sync m => m.Count
  | .concurrent m => m.Count

/-- Interface method `Flush`. -/
def CacheMap.Flush {β : Type} : CacheMap β → CacheMap β
  | .rwm m => .rwm m.Flush
  | .sync m => .sync m.Flush
  | .concurrent m => .concurrent m.Flush

/-- Interface method `Range(f)`.  The callback may write to state captured by
its closure, so it is a state transformer `f : σ → String → β → σ`; the entries
visited are those present when the iteration starts (the callbacks of this
package remove at most the entry being visited). -/
def CacheMap.Range {β σ : Type} (m : CacheMap β) (f : σ → String → β → σ) (s : σ) : σ :=
  m.items.entries.foldl (fun acc e => f acc e.1 e.2) s

/-! ## `cache.go`: the TTL cache -/

/-- The constant `NoExpiration`. -/
def NoExpiration : Int := -1

/-- The constant `DefaultExpiration`. -/
def DefaultExpiration : Int := 0

/-- A stored entry: the payload and its absolute expiration in Unix
nanoseconds (`<= 0`: never expires). -/
structure Item (α : Type) where
  Object : Option α
  Expiration : Int
deriving DecidableEq, Repr

/-- `Item.Expired`, reading the clock as `now`. -/
def Item.Expired {α : Type} (item : Item α) (now : Int) : Bool :=
  if item.Expiration ≤ 0 then false
  else decide (now > item.Expiration)

/-- The `janitor` record (its stop channel is not modelled). -/
structure janitor where
  Interval : Int
deriving DecidableEq, Repr

/-- The `cache` struct. -/
structure cache (α : Type) where
  defaultExpiration : Int
  cacheMap : CacheMap (Item α)
  janitor : Option janitor

/-- `cache.Get`: value, found flag, and the state after the call. -/
def cache.Get {α : Type} (c : cache α) (k : String) (now : Int) :
    Option α × Bool × cache α :=
  match c.cacheMap.Get k with
  | (_, false) => (none, false, c)
  | (some item, true) => (item.Object, !item.Expired now, c)
  | (none, true) => (none, false, c)

/-- `cache.Set`. -/
def cache.Set {α : Type} (c : cache α) (k : String) (x : Option α) (d : Int) (now : Int) :
    cache α :=
  let d1 := if d = DefaultExpiration then c.defaultExpiration else d
  let e := if d1 > 0 then wrapInt64 (now + d1) else 0
  { c with cacheMap := c.cacheMap.Set k { Object := x, Expiration := e } }

/-- `cache.Delete`. -/
def cache.Delete {α : Type} (c : cache α) (k : String) : cache α :=
  { c with cacheMap := c.cacheMap.Delete k }

/-- `cache.SetDefault`. -/
def cache.SetDefault {α : Type} (c : cache α) (k : String) (x : Option α) (now : Int) :
    cache α :=
  c.Set k x DefaultExpiration now

/-- `cache.GetWithExpiration`: value, expiration time, found flag, and the state
after the call. -/
def cache.GetWithExpiration {α : Type} (c : cache α) (k : String) :
    Option α × Time × Bool × cache α :=
  match c.cacheMap.Get k with
  | (_, false) => (none, Time.zero, false, c)
  | (some item, true) =>
    if item.Expiration ≤ 0 then (item.Object, Time.zero, true, c)
    else (item.Object, Time.Unix 0 item.Expiration, true, c)
  | (none, true) => (none, Time.zero, false, c)

/-- `cache.DeleteExpired`, reading the clock once as `now`. -/
def cache.DeleteExpired {α : Type} (c : cache α) (now : Int) : cache α :=
  c.cacheMap.Range
    (fun (acc : cache α) k item =>
      if item.Expiration > 0 ∧ now > item.Expiration then acc.Delete k else acc)
    c

/-- `cache.ItemCount`. -/
def cache.ItemCount {α : Type} (c : cache α) : Int := c.cacheMap.Count

/-- `cache.Items`: the returned map and the state after the call. -/
def cache.Items {α : Type} (c : cache α) (now : Int) : GoMap (Item α) × cache α :=
  (c.cacheMap.Range
    (fun (m : GoMap (Item α)) k item =>
      if item.Expiration ≤ 0 ∨ now ≤ item.Expiration then m.insert k item else m)
    ∅, c)

/-- `cache.Flush`. -/
def cache.Flush {α : Type} (c : cache α) : cache α :=
  { c with cacheMap := c.cacheMap.Flush }

/-- `runJanitor`: records the janitor on the cache (the goroutine it starts
calls `DeleteExpired` on every tick). -/
def runJanitor {α : Type} (c : cache α) (ci : Int) : cache α :=
  { c with janitor := some { Interval := ci } }

/-- `newCache`. -/
def newCache {α : Type} (de : Int) (m : CacheMap (Item α)) : cache α :=
  let de1 := if de = 0 then -1 else de
  { defaultExpiration := de1, cacheMap := m, janitor := none }

/-- `New`. -/
def New {α : Type} (defaultExpiration cleanupInterval : Int) (m : CacheMap (Item α)) :
    cache α :=
  let c := newCache defaultExpiration m
  if cleanupInterval > 0 then runJanitor c cleanupInterval else c

/-- One call on a TTL cache, with the clock reading it observes. -/
inductive Op (α : Type) where
  | Get (k : String) (now : Int)
  | Set (k : String) (x : Option α) (d : Int) (now : Int)
  | SetDefault (k : String) (x : Option α) (now : Int)
  | Delete (k : String)
  | GetWithExpiration (k : String)
  | DeleteExpired (now : Int)
  | Items (now : Int)
  | ItemCount
  | Flush

/-- The state after one call. -/
def cache.step {α : Type} (c : cache α) : Op α → cache α
  | .Get k now => (c.Get k now).2.2
  | .Set k x d now => c.Set k x d now
  | .SetDefault k x now => c.SetDefault k x now
  | .Delete k => c.Delete k
  | .GetWithExpiration k => (c.GetWithExpiration k).2.2.2
  | .DeleteExpired now => c.DeleteExpired now
  | .Items now => (c.Items now).2
  | .ItemCount => c
  | .Flush => c.Flush

/-- The state after a sequence of calls. -/
def cache.run {α : Type} (c : cache α) (ops : List (Op α)) : cache α :=
  ops.foldl cache.step c

/-- The call does not write key `k`: it is not a `Set`/`SetDefault`/`Delete` of
`k` and not a `Flush`.  (Sweeps are allowed.) -/
def Op.leaves {α : Type} (k : String) : Op α → Prop
  | .Set k1 _ _ _ => k1 ≠ k
  | .SetDefault k1 _ _ => k1 ≠ k
  | .Delete k1 => k1 ≠ k
  | .Flush => False
  | _ => True

/-- The call reads the clock, if at all, no later than `t`. -/
def Op.notAfter {α : Type} (t : Int) : Op α → Prop
  | .Get _ now => now ≤ t
  | .Set _ _ _ now => now ≤ t
  | .SetDefault _ _ now => now ≤ t
  | .DeleteExpired now => now ≤ t
  | .Items now => now ≤ t
  | _ => True

/-! ## `lru-cache.go`: the LRU cache

`container/list` elements live in `elems`: `PushFront` allocates the next
address, and an element address `p` stands for the `*list.Element` whose
`Value` is the `*CacheItem` stored at `elems[p]`.  `lruList` is the list of
linked element addresses, front first; `cache` is the hash index. -/

/-- The `CacheItem` struct; `expireAt` is an instant in nanoseconds. -/
structure CacheItem (α : Type) where
  key : String
  value : Option α
  expireAt : Int
deriving DecidableEq, Repr

/-- `CacheItem.isExpired`: `expireAt.Before(time.Now())`. -/
def CacheItem.isExpired {α : Type} (c : CacheItem α) (now : Int) : Bool :=
  decide (c.expireAt < now)

/-- The `LRUCache` struct. -/
structure LRUCache (α : Type) where
  maxItems : Int
  expireTime : Int
  cleanTime : Int
  cache : GoMap Nat
  lruList : List Nat
  elems : List (CacheItem α)

/-- `list.MoveToFront(e)`: nothing happens unless `e` is linked in the list. -/
def listMoveToFront (l : List Nat) (e : Nat) : List Nat :=
  if e ∈ l then e :: l.erase e else l

/-- `list.Remove(e)`: nothing happens unless `e` is linked in the list. -/
def listRemove (l : List Nat) (e : Nat) : List Nat := l.erase e

/-- `list.PushFront`. -/
def listPushFront (l : List Nat) (e : Nat) : List Nat := e :: l

/-- `list.Back()`. -/
def listBack (l : List Nat) : Option Nat := l.getLast?

/-- `NewLRUCache` (the GC goroutine it starts runs `gcPass` on every tick). -/
def NewLRUCache {α : Type} (maxItems expireTime cleanTime : Int) : LRUCache α :=
  { maxItems := maxItems, expireTime := expireTime, cleanTime := cleanTime,
    cache := ∅, lruList := [], elems := [] }

/-- `LRUCache.Get`: value, found flag, and the state after the call. -/
def LRUCache.Get {α : Type} (c : LRUCache α) (key : String) (now : Int) :
    Option α × Bool × LRUCache α :=
  match c.cache.lookup key with
  | none => (none, false, c)
  | some ele =>
    match c.elems[ele]? with
    | none => (none, false, c)
    | some item =>
      if !item.isExpired now then
        (item.value, true, { c with lruList := listMoveToFront c.lruList ele })
      else (none, false, c)

/-- `LRUCache.Set`. -/
def LRUCache.Set {α : Type} (c : LRUCache α) (key : String) (value : Option α) (now : Int) :
    LRUCache α :=
  match c.cache.lookup key with
  | some ele =>
    { c with
      lruList := listMoveToFront c.lruList ele
      elems := c.elems.modify
        (fun item => { item with expireAt := now + c.expireTime, value := value }) ele }
  | none =>
    let ele := c.elems.length
    let elems1 := c.elems ++ [{ key := key, value := value, expireAt := now + c.expireTime }]
    let list1 := listPushFront c.lruList ele
    let cache1 := c.cache.insert key ele
    if (list1.length : Int) > c.maxItems then
      match listBack list1 with
      | some back =>
        { c with
          elems := elems1
          lruList := listRemove list1 back
          cache := match elems1[back]? with
            | some item => cache1.erase item.key
            | none => cache1 }
      | none => { c with elems := elems1, lruList := list1, cache := cache1 }
    else { c with elems := elems1, lruList := list1, cache := cache1 }

/-- `LRUCache.Delete`. -/
def LRUCache.Delete {α : Type} (c : LRUCache α) (key : String) : LRUCache α :=
  match c.cache.lookup key with
  | some ele => { c with lruList := listRemove c.lruList ele, cache := c.cache.erase key }
  | none => c

/-- One tick of `LRUCache.startGC`: the loop over the hash index.  `isExpired()` reads
`time.Now()` anew for every visited entry: `clock key` is the reading taken when the
entry under `key` is visited. -/
def LRUCache.gcPass {α : Type} (c : LRUCache α) (clock : String → Int) : LRUCache α :=
  c.cache.entries.foldl
    (fun (acc : LRUCache α) e =>
      match acc.elems[e.2]? with
      | some item =>
        if item.isExpired (clock e.1) then
          { acc with lruList := listRemove acc.lruList e.2, cache := acc.cache.erase e.1 }
        else acc
      | none => acc)
    c

/-- One call on an LRU cache, with the clock reading it observes. -/
inductive LRUOp (α : Type) where
  | Get (key : String) (now : Int)
  | Set (key : String) (value : Option α) (now : Int)
  | Delete (key : String)
  | GC (clock : String → Int)

/-- The state after one call. -/
def LRUCache.step {α : Type} (c : LRUCache α) : LRUOp α → LRUCache α
  | .Get key now => (c.Get key now).2.2
  | .Set key value now => c.Set key value now
  | .Delete key => c.Delete key
  | .GC clock => c.gcPass clock

/-- The state after a sequence of calls. -/
def LRUCache.run {α : Type} (c : LRUCache α) (ops : List (LRUOp α)) : LRUCache α :=
  ops.foldl LRUCache.step c

/-! ## Call sequences on the `SyncMap` backend -/

/-- One call on a storage backend (`Range` itself writes nothing; the `Delete`
calls made by a `Range` callback are calls of the sequence). -/
inductive MapOp (β : Type) where
  | Get (k : String)
  | Set (k : String) (x : β)
  | Delete (k : String)
  | Count

/-- The `SyncMap` after one call. -/
def SyncMap.step {β : Type} (m : SyncMap β) : MapOp β → SyncMap β
  | .Get _ => m
  | .Set k x => m.Set k x
  | .Delete k => m.Delete k
  | .Count => m

/-- The `SyncMap` after a sequence of calls. -/
def SyncMap.run {β : Type} (m : SyncMap β) (ops : List (MapOp β)) : SyncMap β :=
  ops.foldl SyncMap.step m

/-- Number of `Set` calls in a sequence. -/
def MapOp.setCalls {β : Type} : List (MapOp β) → Nat
  | [] => 0
  | .Set _ _ :: ops => MapOp.setCalls ops + 1
  | _ :: ops => MapOp.setCalls ops

/-- Number of `Delete` calls in a sequence. -/
def MapOp.deleteCalls {β : Type} : List (MapOp β) → Nat
  | [] => 0
  | .Delete _ :: ops => MapOp.deleteCalls ops + 1
  | _ :: ops => MapOp.deleteCalls ops

/-- The calls `Set(k_1, x) ... Set(k_n, x)` for a list of keys. -/
def MapOp.setAll {β : Type} (x : β) (keys : List String) : List (MapOp β) :=
  keys.map (fun k => MapOp.Set k x)

/-! ## Specification vocabulary for the LRU cache -/

/-- Number of entries of the hash index, `len(c.cache)`. -/
def LRUCache.indexSize {α : Type} (c : LRUCache α) : Nat := c.cache.entries.length

/-- The key of the `CacheItem` held by the element at address `p`. -/
def LRUCache.keyAt {α : Type} (c : LRUCache α) (p : Nat) : Option String :=
  (c.elems[p]?).map (fun item => item.key)

/-- Index and recency list are mutually consistent: no element is linked twice, the
index maps every key to a linked element whose item carries that key, and every
linked element is the one the index holds for its item's key. -/
structure LRUCache.Consistent {α : Type} (c : LRUCache α) : Prop where
  nodup : c.lruList.Nodup
  index_to_list : ∀ k p, c.cache.lookup k = some p →
    p ∈ c.lruList ∧ c.keyAt p = some k
  list_to_index : ∀ p, p ∈ c.lruList →
    ∃ k, c.keyAt p = some k ∧ c.cache.lookup k = some p

/-- The key a call accesses, if it is an access: every `Set`, and a `Get` that
hits. -/
def LRUCache.accessed {α : Type} (c : LRUCache α) : LRUOp α → Option String
  | .Set key _ _ => some key
  | .Get key now => if (c.Get key now).2.1 then some key else none
  | _ => none

/-- Runs a sequence of calls and records the accessed keys, most recent first, in
front of `log`. -/
def LRUCache.runLog {α : Type} (c : LRUCache α) (log : List String) :
    List (LRUOp α) → LRUCache α × List String
  | [] => (c, log)
  | op :: ops => (c.step op).runLog ((c.accessed op).toList ++ log) ops

/-- The calls `Set(k_1, v_1) ... Set(k_n, v_n)`, in list order, for a list of
(key, value, clock time) triples. -/
def LRUOp.setAll {α : Type} (entries : List (String × Option α × Int)) :
    List (LRUOp α) :=
  entries.map (fun e => LRUOp.Set e.1 e.2.1 e.2.2)

/-- The state in the middle of `Set` on a new key: the element is pushed to the front
and indexed, the capacity is not yet checked. -/
def LRUCache.pushed {α : Type} (c : LRUCache α) (key : String) (value : Option α)
    (now : Int) : LRUCache α :=
  { c with
    elems := c.elems ++ [{ key := key, value := value, expireAt := now + c.expireTime }]
    lruList := listPushFront c.lruList c.elems.length
    cache := c.cache.insert key c.elems.length }

/-- The state after unlinking element `p` from the list and deleting `key` from the
index (the two statements shared by `Delete`, the GC loop and the eviction in `Set`). -/
def LRUCache.removed {α : Type} (c : LRUCache α) (key : String) (p : Nat) : LRUCache α :=
  { c with lruList := listRemove c.lruList p, cache := c.cache.erase key }

/-- Whether the item held by the element at address `p` is expired at `now`. -/
def LRUCache.expiredAt {α : Type} (c : LRUCache α) (now : Int) (p : Nat) : Bool :=
  match c.elems[p]? with
  | some item => item.isExpired now
  | none => false

/-- Whether the item held by the element at address `p` is expired at the clock reading
a GC pass takes when it visits that item's key. -/
def LRUCache.expiredSeen {α : Type} (c : LRUCache α) (clock : String → Int) (p : Nat) :
    Bool :=
  match c.elems[p]? with
  | some item => item.isExpired (clock item.key)
  | none => false

/-- The body of the GC loop for one visited index entry. -/
def LRUCache.gcVisit {α : Type} (clock : String → Int) (acc : LRUCache α)
    (e : Sigma (fun _ : String => Nat)) : LRUCache α :=
  if acc.expiredAt (clock e.1) e.2 then acc.removed e.1 e.2 else acc

/-- The recency list is ordered by last access with respect to `log` (accessed keys,
most recent first): of two linked nodes, the one nearer the front carries the key whose
most recent access comes first in `log`. -/
def LRUCache.Recency {α : Type} (c : LRUCache α) (log : List String) : Prop :=
  c.lruList.Pairwise
    (fun p q => ∀ kp kq, c.keyAt p = some kp → c.keyAt q = some kq →
      log.indexOf kp < log.indexOf kq)

/-! ## Background tasks: tickers -/

/-- `time.NewTicker(d)`: the period of the new ticker, or the panic it raises for a
non-positive interval. -/
def NewTicker (d : Int) : Except String Int :=
  if d ≤ 0 then Except.error "non-positive interval for NewTicker" else Except.ok d

/-- The first statement of `janitor.Run`: creating the ticker (every later tick calls
`DeleteExpired`). -/
def janitor.Run (j : janitor) : Except String Int := NewTicker j.Interval

/-- The goroutine `New` leaves running, if any: the ticker creation of its janitor. -/
def cache.background {α : Type} (c : cache α) : Option (Except String Int) :=
  c.janitor.map janitor.Run

/-- The first statement of `LRUCache.startGC`, the goroutine `NewLRUCache` starts
unconditionally: creating the ticker (every later tick runs `gcPass`). -/
def LRUCache.startGC {α : Type} (c : LRUCache α) : Except String Int :=
  NewTicker c.cleanTime

/-! ## Locking discipline of the `RwmMap` backend -/

/-- How a method holds the `sync.RWMutex` while it touches the guarded data. -/
inductive LockMode where
  | unlocked
  | shared
  | exclusive
deriving DecidableEq, Repr

/-- The methods of the `CacheMap` interface. -/
inductive MapMethod where
  | Get
  | Set
  | Delete
  | Range
  | Count
  | Flush
deriving DecidableEq, Repr

/-- The lock each `RwmMap` method holds around its access to `m.items`: `Get` takes
`RLock`; `Set`, `Delete` and `Flush` take `Lock`; `Range` and `Count` take none. -/
def RwmMap.lockMode : MapMethod → LockMode
  | .Get => .shared
  | .Set => .exclusive
  | .Delete => .exclusive
  | .Range => .unlocked
  | .Count => .unlocked
  | .Flush => .exclusive

/-- Whether the method writes `m.items`. -/
def RwmMap.writesItems : MapMethod → Bool
  | .Set => true
  | .Delete => true
  | .Flush => true
  | _ => false

/-- A `sync.RWMutex` keeps two critical sections apart exactly when both hold it and at
least one holds it exclusively. -/
def LockMode.excludes : LockMode → LockMode → Bool
  | .exclusive, .exclusive => true
  | .exclusive, .shared => true
  | .shared, .exclusive => true
  | _, _ => false

/-- Two `RwmMap` calls from different goroutines race on `m.items`: at least one writes
the map and the mutex does not keep their accesses apart. -/
def RwmMap.races (a b : MapMethod) : Bool :=
  (RwmMap.writesItems a || RwmMap.writesItems b) &&
    !(LockMode.excludes (RwmMap.lockMode a) (RwmMap.lockMode b))

/-- The backend methods a TTL cache call invokes. -/
def Op.backendCalls {α : Type} : Op α → List MapMethod
  | .Get _ _ => [.Get]
  | .Set _ _ _ _ => [.Set]
  | .SetDefault _ _ _ => [.Set]
  | .Delete _ => [.Delete]
  | .GetWithExpiration _ => [.Get]
  | .DeleteExpired _ => [.Range, .Delete]
  | .Items _ => [.Count, .Range]
  | .ItemCount => [.Count]
  | .Flush => [.Flush]

/-! ## `LRUCache.Get` as two critical sections -/

/-- The first critical section of `LRUCache.Get`, under `RLock`: the hit check.  It
yields the element on a hit. -/
def LRUCache.getCheck {α : Type} (c : LRUCache α) (key : String) (now : Int) : Option Nat :=
  match c.cache.lookup key with
  | none => none
  | some ele =>
    match c.elems[ele]? with
    | none => none
    | some item => if !item.isExpired now then some ele else none

/-- The second critical section of `LRUCache.Get`, under `Lock`, and its return
statement: `MoveToFront(ele)`, then `ele.Value.(*CacheItem).value, true`. -/
def LRUCache.getPromote {α : Type} (c : LRUCache α) (ele : Nat) :
    Option α × Bool × LRUCache α :=
  ((c.elems[ele]?).bind (fun item => item.value), true,
    { c with lruList := listMoveToFront c.lruList ele })

/-- `LRUCache.Get` when other goroutines complete the calls `others` (each under the
exclusive lock) between its `RUnlock` and its `Lock`. -/
def LRUCache.GetInterleaved {α : Type} (c : LRUCache α) (key : String) (now : Int)
    (others : List (LRUOp α)) : Option α × Bool × LRUCache α :=
  match c.getCheck key now with
  | none => (none, false, c)
  | some ele => (c.run others).getPromote ele

/-! ## Basic facts about the backends and the TTL cache -/


theorem CacheMap.backend_Get_eq {β : Type} (m : CacheMap β) (k : String) :
    m.Get k = match m.items.lookup k with
      | none => (none, false)
      | some item => (some item, true) := by
  cases m <;> rfl

theorem CacheMap.backend_items_Set {β : Type} (m : CacheMap β) (k : String) (x : β) :
    (m.Set k x).items = m.items.insert k x := by
  cases m <;> rfl

theorem CacheMap.backend_items_Delete {β : Type} (m : CacheMap β) (k : String) :
    (m.Delete k).items = m.items.erase k := by
  cases m <;> rfl

theorem CacheMap.backend_items_Flush {β : Type} (m : CacheMap β) :
    m.Flush.items = ∅ := by
  cases m <;> rfl

theorem CacheMap.backend_Count_Flush {β : Type} (m : CacheMap β) :
    m.Flush.Count = 0 := by
  cases m <;> rfl

theorem cache.Get_eq {α : Type} (c : cache α) (k : String) (now : Int) :
    c.Get k now = match c.cacheMap.items.lookup k with
      | none => (none, false, c)
      | some item => (item.Object, !item.Expired now, c) := by
  unfold cache.Get
  rw [CacheMap.backend_Get_eq]
  cases c.cacheMap.items.lookup k <;> rfl

theorem cache.GetWithExpiration_eq {α : Type} (c : cache α) (k : String) :
    c.GetWithExpiration k = match c.cacheMap.items.lookup k with
      | none => (none, Time.zero, false, c)
      | some item =>
        if item.Expiration ≤ 0 then (item.Object, Time.zero, true, c)
        else (item.Object, Time.Unix 0 item.Expiration, true, c) := by
  unfold cache.GetWithExpiration
  rw [CacheMap.backend_Get_eq]
  cases c.cacheMap.items.lookup k <;> rfl

theorem Item.Expired_iff {α : Type} (item : Item α) (now : Int) :
    item.Expired now = true ↔ (item.Expiration > 0 ∧ now > item.Expiration) := by
  unfold Item.Expired
  split
  · constructor
    · intro h; cases h
    · intro h; omega
  · simp only [decide_eq_true_eq]
    constructor
    · intro h; omega
    · intro h; exact h.2

theorem wrapInt64_of_range (x : Int) (h1 : minInt64 ≤ x) (h2 : x ≤ maxInt64) :
    wrapInt64 x = x := by
  unfold wrapInt64
  unfold minInt64 at h1
  unfold maxInt64 at h2
  omega



theorem cache.items_Delete {α : Type} (c : cache α) (k : String) :
    (c.Delete k).cacheMap.items = c.cacheMap.items.erase k := by
  unfold cache.Delete
  exact CacheMap.backend_items_Delete _ _

theorem sweep_fold_lookup {α : Type} (now : Int) (k : String) :
    ∀ (es : List (Sigma (fun _ : String => Item α))) (c : cache α), es.NodupKeys →
      (es.foldl (fun (acc : cache α) e =>
          if e.2.Expiration > 0 ∧ now > e.2.Expiration then acc.Delete e.1 else acc)
        c).cacheMap.items.lookup k
      = match es.dlookup k with
        | some it => if it.Expired now then none else c.cacheMap.items.lookup k
        | none => c.cacheMap.items.lookup k := by
  intro es
  induction es with
  | nil => intro c _; rfl
  | cons e es ih =>
    intro c hnd
    rw [List.nodupKeys_cons] at hnd
    rw [List.foldl_cons, ih _ hnd.2]
    by_cases hk : k = e.1
    · subst hk
      have hnone : List.dlookup e.1 es = none := List.dlookup_eq_none.mpr hnd.1
      rw [hnone, List.dlookup_cons_eq]
      by_cases hx : e.2.Expiration > 0 ∧ now > e.2.Expiration
      · have hE : e.2.Expired now = true := (Item.Expired_iff _ _).mpr hx
        simp only [hx, and_self, if_true, hE, cache.items_Delete, AList.lookup_erase]
      · have hE : e.2.Expired now = false := by
          cases h : e.2.Expired now
          · rfl
          · exact absurd ((Item.Expired_iff _ _).mp h) hx
        simp only [hx, if_false, hE]
        simp
    · rw [List.dlookup_cons_ne _ _ hk]
      have hstep : (if e.2.Expiration > 0 ∧ now > e.2.Expiration then c.Delete e.1
          else c).cacheMap.items.lookup k = c.cacheMap.items.lookup k := by
        split
        · rw [cache.items_Delete, AList.lookup_erase_ne hk]
        · rfl
      rw [hstep]

theorem cache.lookup_DeleteExpired {α : Type} (c : cache α) (now : Int) (k : String) :
    (c.DeleteExpired now).cacheMap.items.lookup k
      = (c.cacheMap.items.lookup k).filter (fun it => !it.Expired now) := by
  unfold cache.DeleteExpired CacheMap.Range
  rw [sweep_fold_lookup now k _ c c.cacheMap.items.nodupKeys]
  show (match c.cacheMap.items.lookup k with
    | some it => if it.Expired now then none else c.cacheMap.items.lookup k
    | none => c.cacheMap.items.lookup k) = _
  cases h : c.cacheMap.items.lookup k with
  | none => rfl
  | some it =>
    cases hE : it.Expired now <;> simp [Option.filter, hE]

theorem items_fold_lookup {α : Type} (now : Int) (k : String) :
    ∀ (es : List (Sigma (fun _ : String => Item α))) (m : GoMap (Item α)), es.NodupKeys →
      (es.foldl (fun (acc : GoMap (Item α)) e =>
          if e.2.Expiration ≤ 0 ∨ now ≤ e.2.Expiration then acc.insert e.1 e.2 else acc)
        m).lookup k
      = match es.dlookup k with
        | some it => if it.Expired now then m.lookup k else some it
        | none => m.lookup k := by
  intro es
  induction es with
  | nil => intro m _; rfl
  | cons e es ih =>
    intro m hnd
    rw [List.nodupKeys_cons] at hnd
    rw [List.foldl_cons, ih _ hnd.2]
    by_cases hk : k = e.1
    · subst hk
      have hnone : List.dlookup e.1 es = none := List.dlookup_eq_none.mpr hnd.1
      rw [hnone, List.dlookup_cons_eq]
      by_cases hx : e.2.Expiration ≤ 0 ∨ now ≤ e.2.Expiration
      · have hE : e.2.Expired now = false := by
          cases h : e.2.Expired now
          · rfl
          · have := (Item.Expired_iff _ _).mp h
            omega
        simp only [hx, if_true, hE, AList.lookup_insert]
        simp
      · have hE : e.2.Expired now = true := (Item.Expired_iff _ _).mpr (by omega)
        simp only [hx, if_false, hE, if_true]
    · rw [List.dlookup_cons_ne _ _ hk]
      have hstep : (if e.2.Expiration ≤ 0 ∨ now ≤ e.2.Expiration then m.insert e.1 e.2
          else m).lookup k = m.lookup k := by
        split
        · rw [AList.lookup_insert_ne hk]
        · rfl
      rw [hstep]

theorem cache.lookup_Items {α : Type} (c : cache α) (now : Int) (k : String) :
    (c.Items now).1.lookup k
      = (c.cacheMap.items.lookup k).filter (fun it => !it.Expired now) := by
  unfold cache.Items CacheMap.Range
  rw [items_fold_lookup now k _ ∅ c.cacheMap.items.nodupKeys]
  show (match c.cacheMap.items.lookup k with
    | some it => if it.Expired now then (∅ : GoMap (Item α)).lookup k else some it
    | none => (∅ : GoMap (Item α)).lookup k) = _
  cases h : c.cacheMap.items.lookup k with
  | none => rfl
  | some it =>
    cases hE : it.Expired now <;> simp [Option.filter, hE]

theorem sweep_fold_fields {α : Type} (now : Int) :
    ∀ (es : List (Sigma (fun _ : String => Item α))) (c : cache α),
      (es.foldl (fun (acc : cache α) e =>
          if e.2.Expiration > 0 ∧ now > e.2.Expiration then acc.Delete e.1 else acc)
        c).defaultExpiration = c.defaultExpiration ∧
      (es.foldl (fun (acc : cache α) e =>
          if e.2.Expiration > 0 ∧ now > e.2.Expiration then acc.Delete e.1 else acc)
        c).janitor = c.janitor := by
  intro es
  induction es with
  | nil => intro c; exact ⟨rfl, rfl⟩
  | cons e es ih =>
    intro c
    rw [List.foldl_cons]
    refine ⟨(ih _).1.trans ?_, (ih _).2.trans ?_⟩ <;> split <;> rfl

theorem cache.defaultExpiration_step {α : Type} (c : cache α) (op : Op α) :
    (c.step op).defaultExpiration = c.defaultExpiration := by
  cases op with
  | Get k now => simp only [cache.step, cache.Get_eq]; split <;> rfl
  | Set k x d now => rfl
  | SetDefault k x now => rfl
  | Delete k => rfl
  | GetWithExpiration k =>
    simp only [cache.step, cache.GetWithExpiration_eq]
    split
    · rfl
    · split <;> rfl
  | DeleteExpired now => exact (sweep_fold_fields now _ c).1
  | Items now => rfl
  | ItemCount => rfl
  | Flush => rfl

theorem cache.defaultExpiration_run {α : Type} (ops : List (Op α)) :
    ∀ c : cache α, (c.run ops).defaultExpiration = c.defaultExpiration := by
  induction ops with
  | nil => intro c; rfl
  | cons op ops ih =>
    intro c
    show ((c.step op).run ops).defaultExpiration = _
    rw [ih, cache.defaultExpiration_step]

theorem cache.lookup_Set {α : Type} (c : cache α) (k : String) (x : Option α) (d now : Int) :
    (c.Set k x d now).cacheMap.items.lookup k
      = some { Object := x,
               Expiration :=
                 if (if d = DefaultExpiration then c.defaultExpiration else d) > 0 then
                   wrapInt64 (now + (if d = DefaultExpiration then c.defaultExpiration else d))
                 else 0 } := by
  unfold cache.Set
  simp only [CacheMap.backend_items_Set, AList.lookup_insert]

theorem cache.lookup_Set_ne {α : Type} (c : cache α) (k k1 : String) (x : Option α)
    (d now : Int) (h : k ≠ k1) :
    (c.Set k1 x d now).cacheMap.items.lookup k = c.cacheMap.items.lookup k := by
  unfold cache.Set
  simp only [CacheMap.backend_items_Set, AList.lookup_insert_ne h]

theorem cache.step_Get {α : Type} (c : cache α) (k : String) (now : Int) :
    (c.Get k now).2.2 = c := by
  rw [cache.Get_eq]; split <;> rfl

theorem cache.step_GetWithExpiration {α : Type} (c : cache α) (k : String) :
    (c.GetWithExpiration k).2.2.2 = c := by
  rw [cache.GetWithExpiration_eq]
  split
  · rfl
  · split <;> rfl

theorem cache.lookup_step_leaves {α : Type} (c : cache α) (op : Op α) (k : String)
    (h : op.leaves k) :
    (c.step op).cacheMap.items.lookup k = c.cacheMap.items.lookup k ∨
    ∃ τ, op = Op.DeleteExpired τ ∧
      (c.step op).cacheMap.items.lookup k
        = (c.cacheMap.items.lookup k).filter (fun it => !it.Expired τ) := by
  cases op with
  | Get k1 now => left; show ((c.Get k1 now).2.2).cacheMap.items.lookup k = _; rw [cache.step_Get]
  | Set k1 x d now =>
    left
    have hne : k ≠ k1 := fun e => h e.symm
    exact cache.lookup_Set_ne c k k1 x d now hne
  | SetDefault k1 x now =>
    left
    have hne : k ≠ k1 := fun e => h e.symm
    exact cache.lookup_Set_ne c k k1 x _ now hne
  | Delete k1 =>
    left
    have hne : k ≠ k1 := fun e => h e.symm
    show (c.Delete k1).cacheMap.items.lookup k = _
    rw [cache.items_Delete, AList.lookup_erase_ne hne]
  | GetWithExpiration k1 =>
    left
    show ((c.GetWithExpiration k1).2.2.2).cacheMap.items.lookup k = _
    rw [cache.step_GetWithExpiration]
  | DeleteExpired now => right; exact ⟨now, rfl, cache.lookup_DeleteExpired c now k⟩
  | Items now => left; rfl
  | ItemCount => left; rfl
  | Flush => exact absurd h (by simp [Op.leaves])

theorem cache.lookup_run_keep {α : Type} (k : String) (it : Item α) (ops : List (Op α)) :
    ∀ c : cache α, c.cacheMap.items.lookup k = some it →
      (∀ op ∈ ops, op.leaves k) →
      (∀ τ, Op.DeleteExpired τ ∈ ops → it.Expired τ = false) →
      (c.run ops).cacheMap.items.lookup k = some it := by
  induction ops with
  | nil => intro c h _ _; exact h
  | cons op ops ih =>
    intro c h hl hs
    show ((c.step op).run ops).cacheMap.items.lookup k = some it
    apply ih
    · rcases cache.lookup_step_leaves c op k (hl op (List.mem_cons_self _ _)) with h1 | ⟨τ, hop, h1⟩
      · rw [h1, h]
      · rw [h1, h]
        have := hs τ (hop ▸ List.mem_cons_self _ _)
        simp [Option.filter, this]
    · intro o ho; exact hl o (List.mem_cons_of_mem _ ho)
    · intro τ hτ; exact hs τ (List.mem_cons_of_mem _ hτ)

theorem cache.lookup_run_cases {α : Type} (k : String) (ops : List (Op α)) :
    ∀ c : cache α, (∀ op ∈ ops, op.leaves k) →
      (c.run ops).cacheMap.items.lookup k = c.cacheMap.items.lookup k ∨
      (c.run ops).cacheMap.items.lookup k = none := by
  induction ops with
  | nil => intro c _; left; rfl
  | cons op ops ih =>
    intro c hl
    have hstep := cache.lookup_step_leaves c op k (hl op (List.mem_cons_self _ _))
    have hrest := ih (c.step op) (fun o ho => hl o (List.mem_cons_of_mem _ ho))
    show ((c.step op).run ops).cacheMap.items.lookup k = _ ∨
      ((c.step op).run ops).cacheMap.items.lookup k = none
    rcases hrest with h2 | h2
    · rcases hstep with h1 | ⟨τ, _, h1⟩
      · left; rw [h2, h1]
      · rw [h2, h1]
        cases hc : c.cacheMap.items.lookup k with
        | none => left; rfl
        | some it =>
          cases hE : it.Expired τ
          · left; simp [Option.filter, hE]
          · right; simp [Option.filter, hE]
    · right; exact h2

theorem cache.lookup_Set_positive {α : Type} (c : cache α) (k : String) (v : Option α)
    (d d1 t : Int)
    (hd : (0 < d ∧ d1 = d) ∨
      (d = DefaultExpiration ∧ 0 < c.defaultExpiration ∧ d1 = c.defaultExpiration))
    (ht : 0 ≤ t) (hov : t + d1 ≤ maxInt64) :
    (c.Set k v d t).cacheMap.items.lookup k = some { Object := v, Expiration := t + d1 } ∧
      0 < d1 := by
  have hpos : 0 < d1 := by
    rcases hd with ⟨h1, h2⟩ | ⟨_, h1, h2⟩ <;> omega
  have heff : (if d = DefaultExpiration then c.defaultExpiration else d) = d1 := by
    rcases hd with ⟨h1, h2⟩ | ⟨h0, h1, h2⟩
    · have : d ≠ DefaultExpiration := by unfold DefaultExpiration; omega
      rw [if_neg this, h2]
    · rw [if_pos h0, h2]
  have hw : wrapInt64 (t + d1) = t + d1 :=
    wrapInt64_of_range _ (by unfold minInt64; omega) hov
  refine ⟨?_, hpos⟩
  rw [cache.lookup_Set, heff, if_pos hpos, hw]

/-- C1 (TTLCache expiry window): after `Set(k, v, d)` at clock time `t` with positive
effective duration `d1` (`d1 = d` when `d > 0`, `d1` = the configured default when
`d = DefaultExpiration` and that default is positive), with the clock at or after the
Unix epoch and `t + d1` within `int64`, and after any later calls that do not write `k`
and run no later than `now`, `Get(k)` at `now` returns `(v, true)` when
`now <= t + d1` and reports `found = false` when `now > t + d1`. -/
theorem C1_expiry_window {α : Type} (c : cache α) (k : String) (v : Option α)
    (d d1 t now : Int) (ops : List (Op α))
    (hd : (0 < d ∧ d1 = d) ∨
      (d = DefaultExpiration ∧ 0 < c.defaultExpiration ∧ d1 = c.defaultExpiration))
    (ht : 0 ≤ t) (hov : t + d1 ≤ maxInt64)
    (hops : ∀ op ∈ ops, op.leaves k ∧ op.notAfter now) :
    (now ≤ t + d1 →
      ((c.Set k v d t).run ops).Get k now = (v, true, (c.Set k v d t).run ops)) ∧
    (t + d1 < now → (((c.Set k v d t).run ops).Get k now).2.1 = false) := by
  obtain ⟨hset, hpos⟩ := cache.lookup_Set_positive c k v d d1 t hd ht hov
  constructor
  · intro hnow
    have hkeep := cache.lookup_run_keep k _ ops (c.Set k v d t) hset
      (fun op hop => (hops op hop).1)
      (fun τ hτ => by
        have hle : τ ≤ now := (hops _ hτ).2
        cases hE : Item.Expired ({ Object := v, Expiration := t + d1 } : Item α) τ
        · rfl
        · have := (Item.Expired_iff _ _).mp hE
          simp only at this
          omega)
    rw [cache.Get_eq, hkeep]
    have hE : Item.Expired ({ Object := v, Expiration := t + d1 } : Item α) now = false := by
      cases hE : Item.Expired ({ Object := v, Expiration := t + d1 } : Item α) now
      · rfl
      · have := (Item.Expired_iff _ _).mp hE
        simp only at this
        omega
    simp only [hE, Bool.not_false]
  · intro hnow
    rw [cache.Get_eq]
    rcases cache.lookup_run_cases k ops (c.Set k v d t) (fun op hop => (hops op hop).1)
      with h | h
    · rw [h, hset]
      have hE : Item.Expired ({ Object := v, Expiration := t + d1 } : Item α) now = true :=
        (Item.Expired_iff _ _).mpr ⟨by simp only; omega, by simp only; omega⟩
      simp only [hE, Bool.not_true]
    · rw [h]

/-- Witness for C1: a cache with default 50 over the `RwmMap` backend, `Set("a", 1, 20)`
at time 100, then a `Set` of another key, a sweep and a `Get`; read back at time 120 and
at time 121. -/
theorem C1_expiry_window_witness :
    (((New 50 0 (CacheMap.rwm NewRwmMap) : cache Nat).Set "a" (some 1) 20 100).run
        [Op.Set "b" (some 2) NoExpiration 101, Op.DeleteExpired 110, Op.Get "a" 105]).Get
        "a" 120
      = (some 1, true,
          ((New 50 0 (CacheMap.rwm NewRwmMap) : cache Nat).Set "a" (some 1) 20 100).run
            [Op.Set "b" (some 2) NoExpiration 101, Op.DeleteExpired 110, Op.Get "a" 105]) ∧
    ((((New 50 0 (CacheMap.rwm NewRwmMap) : cache Nat).Set "a" (some 1) 20 100).run
        [Op.Set "b" (some 2) NoExpiration 101, Op.DeleteExpired 110, Op.Get "a" 105]).Get
        "a" 121).2.1 = false :=
  ⟨(C1_expiry_window (New 50 0 (CacheMap.rwm NewRwmMap) : cache Nat) "a" (some 1) 20 20 100 120
      [Op.Set "b" (some 2) NoExpiration 101, Op.DeleteExpired 110, Op.Get "a" 105]
      (Or.inl ⟨by decide, rfl⟩) (by decide) (by decide)
      (by
        intro op hop
        simp only [List.mem_cons, List.mem_singleton, List.not_mem_nil, or_false] at hop
        rcases hop with rfl | rfl | rfl <;> simp [Op.leaves, Op.notAfter])).1 (by decide),
   (C1_expiry_window (New 50 0 (CacheMap.rwm NewRwmMap) : cache Nat) "a" (some 1) 20 20 100 121
      [Op.Set "b" (some 2) NoExpiration 101, Op.DeleteExpired 110, Op.Get "a" 105]
      (Or.inl ⟨by decide, rfl⟩) (by decide) (by decide)
      (by
        intro op hop
        simp only [List.mem_cons, List.mem_singleton, List.not_mem_nil, or_false] at hop
        rcases hop with rfl | rfl | rfl <;> simp [Op.leaves, Op.notAfter])).2 (by decide)⟩

theorem New_defaultExpiration {α : Type} (de ci : Int) (m : CacheMap (Item α)) :
    (New de ci m : cache α).defaultExpiration = if de = 0 then -1 else de := by
  unfold New
  split <;> rfl

theorem Item.Expired_of_nonpos {α : Type} (item : Item α) (now : Int)
    (h : item.Expiration ≤ 0) : item.Expired now = false := by
  unfold Item.Expired
  rw [if_pos h]

/-- C2 (TTLCache never-expiring entries): after `Set(k, v, NoExpiration)` on any cache,
or `Set(k, v, DefaultExpiration)` on a cache built by `New` with a non-positive default
duration (and used arbitrarily since), and after any later calls that do not overwrite,
delete or flush `k` (sweeps at any clock time included), `Get(k)` returns `(v, true)` at
every clock time, and one more `DeleteExpired` at any clock time leaves the entry
stored. -/
theorem C2_never_expires {α : Type} (c : cache α) (de ci : Int) (m : CacheMap (Item α))
    (ops0 ops : List (Op α)) (k : String) (v : Option α) (d t now τ : Int)
    (hd : d = NoExpiration ∨
      (d = DefaultExpiration ∧ de ≤ 0 ∧ c = (New de ci m).run ops0))
    (hops : ∀ op ∈ ops, op.leaves k) :
    ((c.Set k v d t).run ops).Get k now = (v, true, (c.Set k v d t).run ops) ∧
    (((c.Set k v d t).run ops).DeleteExpired τ).cacheMap.items.lookup k
      = some { Object := v, Expiration := 0 } := by
  have hset : (c.Set k v d t).cacheMap.items.lookup k
      = some { Object := v, Expiration := 0 } := by
    rw [cache.lookup_Set]
    have hnp : ¬ (if d = DefaultExpiration then c.defaultExpiration else d) > 0 := by
      rcases hd with h | ⟨h0, hde, hc⟩
      · have : d ≠ DefaultExpiration := by rw [h]; decide
        rw [if_neg this, h]; decide
      · rw [if_pos h0, hc, cache.defaultExpiration_run, New_defaultExpiration]
        split <;> omega
    rw [if_neg hnp]
  have hkeep := cache.lookup_run_keep k _ ops (c.Set k v d t) hset hops
    (fun σ _ => Item.Expired_of_nonpos _ σ (le_refl _))
  constructor
  · rw [cache.Get_eq, hkeep]
    simp only [Item.Expired_of_nonpos ({ Object := v, Expiration := 0 } : Item α) now
      (le_refl _), Bool.not_false]
  · rw [cache.lookup_DeleteExpired, hkeep]
    simp [Option.filter, Item.Expired_of_nonpos ({ Object := v, Expiration := 0 } : Item α) τ
      (le_refl _)]

/-- Witness for C2: `New` with default 0 over the `SyncMap` backend, `Set` with
`DefaultExpiration` at time 100, a sweep at time 1000, then `Get` at time 5000 and a
further sweep at time 9000. -/
theorem C2_never_expires_witness :
    (((New 0 0 (CacheMap.sync NewSyncMap) : cache Nat).Set "b" (some 2) DefaultExpiration
        100).run [Op.DeleteExpired 1000]).Get "b" 5000
      = (some 2, true,
          ((New 0 0 (CacheMap.sync NewSyncMap) : cache Nat).Set "b" (some 2) DefaultExpiration
            100).run [Op.DeleteExpired 1000]) ∧
    ((((New 0 0 (CacheMap.sync NewSyncMap) : cache Nat).Set "b" (some 2) DefaultExpiration
        100).run [Op.DeleteExpired 1000]).DeleteExpired 9000).cacheMap.items.lookup "b"
      = some { Object := some 2, Expiration := 0 } :=
  C2_never_expires (New 0 0 (CacheMap.sync NewSyncMap) : cache Nat) 0 0
    (CacheMap.sync NewSyncMap) [] [Op.DeleteExpired 1000] "b" (some 2) DefaultExpiration
    100 5000 9000 (Or.inr ⟨rfl, by decide, rfl⟩)
    (by
      intro op hop
      simp only [List.mem_singleton] at hop
      subst hop
      simp [Op.leaves])

theorem LRUCache.Get_eq_of_lookup {α : Type} (c c1 : LRUCache α) (key : String) (now : Int)
    (h1 : c1.cache.lookup key = c.cache.lookup key) (h2 : c1.elems = c.elems) :
    (c1.Get key now).1 = (c.Get key now).1 ∧ (c1.Get key now).2.1 = (c.Get key now).2.1 := by
  unfold LRUCache.Get
  rw [h1, h2]
  cases c.cache.lookup key with
  | none => exact ⟨rfl, rfl⟩
  | some ele =>
    rcases hitem : c.elems[ele]? with _ | item
    · simp [hitem]
    · simp only [hitem]
      cases hE : item.isExpired now <;> simp

theorem LRUCache.lookup_Delete {α : Type} (c : LRUCache α) (k : String) :
    (c.Delete k).cache.lookup k = none := by
  unfold LRUCache.Delete
  cases h : c.cache.lookup k with
  | none => exact h
  | some ele => exact AList.lookup_erase k c.cache

theorem LRUCache.lookup_Delete_ne {α : Type} (c : LRUCache α) (k k1 : String) (h : k1 ≠ k) :
    (c.Delete k).cache.lookup k1 = c.cache.lookup k1 := by
  unfold LRUCache.Delete
  cases c.cache.lookup k with
  | none => rfl
  | some ele => exact AList.lookup_erase_ne h

theorem LRUCache.elems_Delete {α : Type} (c : LRUCache α) (k : String) :
    (c.Delete k).elems = c.elems := by
  unfold LRUCache.Delete
  cases c.cache.lookup k <;> rfl

/-- C3 (Delete then Get is not-found, both engines): for every TTL cache state `c` (any
backend), every LRU cache state `l` and every key `k`, `Delete(k)` followed by `Get(k)`
returns `(nil, false)` and leaves the state as `Delete` left it; for every other key `k1`
the value and found flag of `Get(k1)` are the same after the `Delete` as before it. -/
theorem C3_delete_then_get {α : Type} (c : cache α) (l : LRUCache α) (k k1 : String)
    (now : Int) (hk : k1 ≠ k) :
    (c.Delete k).Get k now = (none, false, c.Delete k) ∧
    ((c.Delete k).Get k1 now).1 = (c.Get k1 now).1 ∧
    ((c.Delete k).Get k1 now).2.1 = (c.Get k1 now).2.1 ∧
    (l.Delete k).Get k now = (none, false, l.Delete k) ∧
    ((l.Delete k).Get k1 now).1 = (l.Get k1 now).1 ∧
    ((l.Delete k).Get k1 now).2.1 = (l.Get k1 now).2.1 := by
  have hc : (c.Delete k).cacheMap.items.lookup k1 = c.cacheMap.items.lookup k1 := by
    rw [cache.items_Delete, AList.lookup_erase_ne hk]
  have hl := LRUCache.Get_eq_of_lookup l (l.Delete k) k1 now
    (LRUCache.lookup_Delete_ne l k k1 hk) (LRUCache.elems_Delete l k)
  refine ⟨?_, ?_, ?_, ?_, hl.1, hl.2⟩
  · rw [cache.Get_eq, cache.items_Delete, AList.lookup_erase]
  · rw [cache.Get_eq, cache.Get_eq, hc]
    cases c.cacheMap.items.lookup k1 <;> rfl
  · rw [cache.Get_eq, cache.Get_eq, hc]
    cases c.cacheMap.items.lookup k1 <;> rfl
  · unfold LRUCache.Get
    rw [LRUCache.lookup_Delete]

/-- Witness for C3: a TTL cache over the `SyncMap` backend and an LRU cache, each holding
`"foo"` and `"bar"`; delete `"foo"`, then read `"foo"` and `"bar"`. -/
theorem C3_delete_then_get_witness :
    (((((New 0 0 (CacheMap.sync NewSyncMap) : cache Nat).Set "foo" (some 1) 0 10).Set "bar"
        (some 2) 0 10).Delete "foo").Get "bar" 20).1 = some 2 :=
  (C3_delete_then_get
    (((New 0 0 (CacheMap.sync NewSyncMap) : cache Nat).Set "foo" (some 1) 0 10).Set "bar"
        (some 2) 0 10)
    (((NewLRUCache 10 10 10 : LRUCache Nat).Set "foo" (some 1) 10).Set "bar" (some 2) 10)
    "foo" "bar" 20 (by decide)).2.1.trans (by decide)

/-- C4 (Flush empties the TTLCache, every backend): for every cache state, after
`Flush()` the item count is 0 and `Get(k)` returns `(nil, false)` for every key `k` at
every clock time. -/
theorem C4_flush_empties {α : Type} (c : cache α) (k : String) (now : Int) :
    c.Flush.ItemCount = 0 ∧ c.Flush.Get k now = (none, false, c.Flush) := by
  constructor
  · exact CacheMap.backend_Count_Flush c.cacheMap
  · rw [cache.Get_eq]
    have : c.Flush.cacheMap.items = ∅ := CacheMap.backend_items_Flush c.cacheMap
    rw [this, AList.lookup_empty]

/-- C5 (DeleteExpired removes exactly the expired entries): for every cache state, clock
time `now` and key `k`, the entry stored under `k` after `DeleteExpired()` is the entry
stored before when that entry has `Expiration <= 0` or `now <= Expiration`, and there is
none otherwise; so `k` is stored afterwards iff it was stored before with
`Expiration <= 0` or `now <= Expiration`, survivors keep value and `Expiration`, and no
entry with `Expiration > 0` and `now > Expiration` survives. -/
theorem C5_deleteExpired_exact {α : Type} (c : cache α) (now : Int) (k : String) :
    (c.DeleteExpired now).cacheMap.items.lookup k
      = (c.cacheMap.items.lookup k).filter
          (fun it => decide (it.Expiration ≤ 0 ∨ now ≤ it.Expiration)) ∧
    (k ∈ (c.DeleteExpired now).cacheMap.items ↔
      ∃ it, c.cacheMap.items.lookup k = some it ∧
        (it.Expiration ≤ 0 ∨ now ≤ it.Expiration)) ∧
    ¬ ∃ it, (c.DeleteExpired now).cacheMap.items.lookup k = some it ∧
        it.Expiration > 0 ∧ now > it.Expiration := by
  have hlive : ∀ it : Item α,
      (!it.Expired now) = decide (it.Expiration ≤ 0 ∨ now ≤ it.Expiration) := by
    intro it
    cases hE : it.Expired now
    · have hn : ¬ (it.Expiration > 0 ∧ now > it.Expiration) := by
        intro h
        rw [(Item.Expired_iff it now).mpr h] at hE
        cases hE
      have : it.Expiration ≤ 0 ∨ now ≤ it.Expiration := by omega
      simp [this]
    · have := (Item.Expired_iff it now).mp hE
      have hn : ¬ (it.Expiration ≤ 0 ∨ now ≤ it.Expiration) := by omega
      simp [hn]
  have h1 : (c.DeleteExpired now).cacheMap.items.lookup k
      = (c.cacheMap.items.lookup k).filter
          (fun it => decide (it.Expiration ≤ 0 ∨ now ≤ it.Expiration)) := by
    rw [cache.lookup_DeleteExpired]
    congr 1
    funext it
    exact hlive it
  refine ⟨h1, ?_, ?_⟩
  · rw [← AList.lookup_isSome, h1]
    cases hc : c.cacheMap.items.lookup k with
    | none => simp [Option.filter]
    | some it =>
      by_cases hl : it.Expiration ≤ 0 ∨ now ≤ it.Expiration
      · simp [Option.filter, hl]
      · simp [Option.filter, hl]
  · rintro ⟨it, hit, hpos, hlt⟩
    rw [h1] at hit
    cases hc : c.cacheMap.items.lookup k with
    | none => rw [hc] at hit; simp [Option.filter] at hit
    | some it0 =>
      rw [hc] at hit
      by_cases hl : it0.Expiration ≤ 0 ∨ now ≤ it0.Expiration
      · simp [Option.filter, hl] at hit
        subst hit
        omega
      · simp [Option.filter, hl] at hit

theorem LRUCache.Get_miss {α : Type} (l : LRUCache α) (key : String) (now : Int)
    (hmiss : l.cache.lookup key = none ∨
      ∃ ele item, l.cache.lookup key = some ele ∧ l.elems[ele]? = some item ∧
        item.isExpired now = true) :
    l.Get key now = (none, false, l) := by
  unfold LRUCache.Get
  rcases hmiss with h | ⟨ele, item, h1, h2, h3⟩
  · rw [h]
  · rw [h1]
    simp only [h2, h3, Bool.not_true]
    rfl

/-- C6 (reads are lazy): for every TTL cache state, key and clock time, `Get` returns the
state it was given, so the backend mapping and the item count are unchanged (an expired
entry stays stored and counted); and an LRU `Get` on a key that is absent from the index,
or whose item is expired, returns not-found and leaves the whole LRU state (hash index
and recency list, contents and order) unchanged. -/
theorem C6_get_is_lazy {α : Type} (c : cache α) (k : String) (now : Int)
    (l : LRUCache α) (key : String) (lnow : Int)
    (hmiss : l.cache.lookup key = none ∨
      ∃ ele item, l.cache.lookup key = some ele ∧ l.elems[ele]? = some item ∧
        item.isExpired lnow = true) :
    (c.Get k now).2.2 = c ∧
    (c.Get k now).2.2.cacheMap.items = c.cacheMap.items ∧
    (c.Get k now).2.2.ItemCount = c.ItemCount ∧
    (l.Get key lnow).2.2 = l ∧
    (l.Get key lnow).2.2.cache = l.cache ∧
    (l.Get key lnow).2.2.lruList = l.lruList := by
  have h1 := cache.step_Get c k now
  have h2 : (l.Get key lnow).2.2 = l := by rw [LRUCache.Get_miss l key lnow hmiss]
  rw [h1, h2]
  exact ⟨rfl, rfl, rfl, rfl, rfl, rfl⟩

/-- Witness for C6: a TTL cache holding an entry that expired at time 120, read at time
500, and an LRU cache holding `"key"` with expiry 10, read at time 11. -/
theorem C6_get_is_lazy_witness :
    ((((New 50 0 (CacheMap.rwm NewRwmMap) : cache Nat).Set "a" (some 1) 20 100).Get "a"
        500).2.2.ItemCount = 1) ∧
    ((((NewLRUCache 10 10 10 : LRUCache Nat).Set "key" (some 1) 0).Get "key" 11).2.2.lruList
      = [0]) :=
  ⟨(C6_get_is_lazy ((New 50 0 (CacheMap.rwm NewRwmMap) : cache Nat).Set "a" (some 1) 20 100)
      "a" 500 ((NewLRUCache 10 10 10 : LRUCache Nat).Set "key" (some 1) 0) "key" 11
      (Or.inr ⟨0, { key := "key", value := some 1, expireAt := 10 }, by decide, by decide,
        by decide⟩)).2.2.1.trans (by decide),
   (C6_get_is_lazy ((New 50 0 (CacheMap.rwm NewRwmMap) : cache Nat).Set "a" (some 1) 20 100)
      "a" 500 ((NewLRUCache 10 10 10 : LRUCache Nat).Set "key" (some 1) 0) "key" 11
      (Or.inr ⟨0, { key := "key", value := some 1, expireAt := 10 }, by decide, by decide,
        by decide⟩)).2.2.2.2.2.trans (by decide)⟩

theorem Time.Unix_of_pos (e : Int) (h0 : 0 < e) (h1 : e ≤ maxInt64) :
    (Time.Unix 0 e).UnixNano = e ∧ Time.Unix 0 e ≠ Time.zero ∧
      (Time.Unix 0 e).IsZero = false := by
  have hmax : e ≤ 2 ^ 63 - 1 := h1
  have hne : ∀ s n : Int, 0 < s → (⟨s, n⟩ : Time) ≠ Time.zero := by
    intro s n hs heq
    have : s = 0 := congrArg Time.sec heq
    omega
  have hz : ∀ s n : Int, 0 < s → Time.IsZero ⟨s, n⟩ = false := by
    intro s n hs
    have : s ≠ 0 := by omega
    simp [Time.IsZero, this]
  by_cases hbig : e < 0 ∨ e ≥ 1000000000
  · have hge : e ≥ 1000000000 := by omega
    have hdiv : e.tdiv 1000000000 = e / 1000000000 :=
      Int.tdiv_eq_ediv (by omega) (by omega)
    have hw : wrapInt64 (0 + e / 1000000000) = e / 1000000000 := by
      unfold wrapInt64; omega
    have hns : ¬ e - e / 1000000000 * 1000000000 < 0 := by omega
    have hU : Time.Unix 0 e
        = ⟨e / 1000000000 + unixToInternal, e - e / 1000000000 * 1000000000⟩ := by
      unfold Time.Unix
      rw [if_pos hbig]
      simp only [hdiv, hw, if_neg hns]
    rw [hU]
    refine ⟨?_, hne _ _ (by unfold unixToInternal; omega),
      hz _ _ (by unfold unixToInternal; omega)⟩
    unfold Time.UnixNano wrapInt64
    simp only
    omega
  · have hU : Time.Unix 0 e = ⟨0 + unixToInternal, e⟩ := by
      unfold Time.Unix
      rw [if_neg hbig]
    rw [hU]
    refine ⟨?_, hne _ _ (by unfold unixToInternal; omega),
      hz _ _ (by unfold unixToInternal; omega)⟩
    unfold Time.UnixNano wrapInt64
    simp only
    omega

/-- C7 (GetWithExpiration versus Get, found flag): the claim that both report the same
found flag fails on the code.  With `"c"` set at time 100 for 20ns and the clock at 121,
`Get("c")` reports `found = false` (the entry is expired) while `GetWithExpiration("c")`
reports `found = true`: it never consults the clock. -/
theorem C7_found_flags_disagree :
    (((New 0 0 (CacheMap.rwm NewRwmMap) : cache Nat).Set "c" (some 3) 20 100).Get "c"
        121).2.1 = false ∧
    (((New 0 0 (CacheMap.rwm NewRwmMap) : cache Nat).Set "c" (some 3) 20 100).GetWithExpiration
        "c").2.2.1 = true := by
  decide

/-- C8, counterexample: `Set("k", 1, math.MaxInt64)` at clock 100 has a positive
effective duration, but `100 + MaxInt64` overflows `int64`: the stored `Expiration`
wraps to a negative number and `GetWithExpiration("k")` returns the zero time, not the
instant whose `UnixNano` is `t + d'`. -/
theorem C8_expiration_wraps_on_overflow :
    ((New 0 0 (CacheMap.rwm NewRwmMap) : cache Nat).Set "k" (some 1) 9223372036854775807
        100).cacheMap.items.lookup "k"
      = some { Object := some 1, Expiration := -9223372036854775709 } ∧
    (((New 0 0 (CacheMap.rwm NewRwmMap) : cache Nat).Set "k" (some 1) 9223372036854775807
        100).GetWithExpiration "k").2.1 = Time.zero ∧
    (((New 0 0 (CacheMap.rwm NewRwmMap) : cache Nat).Set "k" (some 1) 9223372036854775807
        100).GetWithExpiration "k").2.2.1 = true ∧
    (((New 0 0 (CacheMap.rwm NewRwmMap) : cache Nat).Set "k" (some 1) 9223372036854775807
        100).GetWithExpiration "k").2.1.UnixNano ≠ 100 + 9223372036854775807 := by
  refine ⟨by decide, by decide, by decide, by decide⟩

/-- C8 as amended (GetWithExpiration surfaces the stored instant): after `Set(k, v, d)`
at clock time `t` (at or after the Unix epoch) with positive effective duration `d1` and
`t + d1` not overflowing `int64`, and after any later calls that do not write `k` and run
no later than `t + d1`, `GetWithExpiration(k)` returns the instant whose `UnixNano` is
exactly `t + d1`, which is not before `t`; and in every state whose stored expirations
are `int64` values, the returned time is the zero time exactly when the key is absent or
its stored `Expiration` is `<= 0`. -/
theorem C8_expiration_instant {α : Type} (c : cache α) (k : String) (v : Option α)
    (d d1 t : Int) (ops : List (Op α)) (c2 : cache α) (k2 : String)
    (hd : (0 < d ∧ d1 = d) ∨
      (d = DefaultExpiration ∧ 0 < c.defaultExpiration ∧ d1 = c.defaultExpiration))
    (ht : 0 ≤ t) (hov : t + d1 ≤ maxInt64)
    (hops : ∀ op ∈ ops, op.leaves k ∧ op.notAfter (t + d1))
    (h64 : ∀ it, c2.cacheMap.items.lookup k2 = some it → it.Expiration ≤ maxInt64) :
    (((c.Set k v d t).run ops).GetWithExpiration k).2.1.UnixNano = t + d1 ∧
    t ≤ (((c.Set k v d t).run ops).GetWithExpiration k).2.1.UnixNano ∧
    ((c2.GetWithExpiration k2).2.1 = Time.zero ↔
      (c2.cacheMap.items.lookup k2 = none ∨
        ∃ it, c2.cacheMap.items.lookup k2 = some it ∧ it.Expiration ≤ 0)) ∧
    ((c2.GetWithExpiration k2).2.1.IsZero = true ↔
      (c2.cacheMap.items.lookup k2 = none ∨
        ∃ it, c2.cacheMap.items.lookup k2 = some it ∧ it.Expiration ≤ 0)) := by
  obtain ⟨hset, hpos⟩ := cache.lookup_Set_positive c k v d d1 t hd ht hov
  have hkeep := cache.lookup_run_keep k _ ops (c.Set k v d t) hset
    (fun op hop => (hops op hop).1)
    (fun τ hτ => by
      have hle : τ ≤ t + d1 := (hops _ hτ).2
      cases hE : Item.Expired ({ Object := v, Expiration := t + d1 } : Item α) τ
      · rfl
      · have := (Item.Expired_iff _ _).mp hE
        simp only at this
        omega)
  have hnano : (((c.Set k v d t).run ops).GetWithExpiration k).2.1.UnixNano = t + d1 := by
    rw [cache.GetWithExpiration_eq, hkeep]
    have hnp : ¬ t + d1 ≤ 0 := by omega
    simp only [if_neg hnp]
    exact (Time.Unix_of_pos (t + d1) (by omega) hov).1
  refine ⟨hnano, by rw [hnano]; omega, ?_, ?_⟩
  · rw [cache.GetWithExpiration_eq]
    cases hc : c2.cacheMap.items.lookup k2 with
    | none => simp
    | some it =>
      by_cases hle : it.Expiration ≤ 0
      · simp [hle]
      · have hU := (Time.Unix_of_pos it.Expiration (by omega) (h64 it hc)).2.1
        simp [hle, hU]
  · rw [cache.GetWithExpiration_eq]
    cases hc : c2.cacheMap.items.lookup k2 with
    | none => simp [Time.IsZero, Time.zero]
    | some it =>
      by_cases hle : it.Expiration ≤ 0
      · simp [hle, Time.IsZero, Time.zero]
      · have hU := (Time.Unix_of_pos it.Expiration (by omega) (h64 it hc)).2.2
        simp [hle, hU]

/-- Witness for C8: `Set("e", 1, 50)` at time 1000 on a cache over the `ConcurrentMap`
backend, then a sweep at time 1020; the surfaced instant is 1050.  The second state
holds `"d"` set with `NoExpiration`. -/
theorem C8_expiration_instant_witness :
    ((((New 0 0 (CacheMap.concurrent NewConcurrentMap) : cache Nat).Set "e" (some 1) 50
        1000).run [Op.DeleteExpired 1020]).GetWithExpiration "e").2.1.UnixNano = 1000 + 50 :=
  (C8_expiration_instant (New 0 0 (CacheMap.concurrent NewConcurrentMap) : cache Nat) "e"
    (some 1) 50 50 1000 [Op.DeleteExpired 1020]
    ((New 0 0 (CacheMap.concurrent NewConcurrentMap) : cache Nat).Set "d" (some 1)
      NoExpiration 1000) "d"
    (Or.inl ⟨by decide, rfl⟩) (by decide) (by decide)
    (by
      intro op hop
      simp only [List.mem_singleton] at hop
      subst hop
      simp [Op.leaves, Op.notAfter])
    (by
      intro it hit
      have h0 : ((New 0 0 (CacheMap.concurrent NewConcurrentMap) : cache Nat).Set "d" (some 1)
          NoExpiration 1000).cacheMap.items.lookup "d"
          = some { Object := some 1, Expiration := 0 } := by decide
      rw [h0] at hit
      cases hit
      decide)).1

/-- C9 (Items agrees with Get and does not mutate): for every cache state, clock time
`now` and key `k`, `k` is in the map returned by `Items()` iff `Get(k)` at the same `now`
reports `found = true`; the entry `Items()` maps `k` to is the stored entry (same value,
same `Expiration`) when `Get` reports found, and there is none otherwise; and the cache
state after the call is the state before it. -/
theorem C9_items_agrees_with_get {α : Type} (c : cache α) (now : Int) (k : String) :
    (k ∈ (c.Items now).1 ↔ (c.Get k now).2.1 = true) ∧
    (c.Items now).1.lookup k
      = (if (c.Get k now).2.1 = true then c.cacheMap.items.lookup k else none) ∧
    (c.Items now).2 = c := by
  have h2 : (c.Items now).1.lookup k
      = (if (c.Get k now).2.1 = true then c.cacheMap.items.lookup k else none) := by
    rw [cache.lookup_Items, cache.Get_eq]
    cases hc : c.cacheMap.items.lookup k with
    | none => simp [Option.filter]
    | some it => cases hE : it.Expired now <;> simp [Option.filter, hE]
  refine ⟨?_, h2, rfl⟩
  rw [← AList.lookup_isSome, h2, cache.Get_eq]
  cases hc : c.cacheMap.items.lookup k with
  | none => simp
  | some it => cases hE : it.Expired now <;> simp [hE]

/-- C10 (Get returns the item or nil): the claim that a `Get` reporting `found = false`
returns the nil value fails on the code.  With `"c"` set to 3 at time 100 for 20ns and
the clock at 121, `Get("c")` reports `found = false` and returns the stored value 3, not
nil. -/
theorem C10_stale_value_with_not_found :
    ((New 0 0 (CacheMap.rwm NewRwmMap) : cache Nat).Set "c" (some 3) 20 100).Get "c" 121
      = (some 3, false,
          (New 0 0 (CacheMap.rwm NewRwmMap) : cache Nat).Set "c" (some 3) 20 100) ∧
    (((New 0 0 (CacheMap.rwm NewRwmMap) : cache Nat).Set "c" (some 3) 20 100).Get "c"
        121).1 ≠ none := by
  constructor
  · rw [cache.Get_eq]
    rfl
  · decide

/-- Supporting fact for C10: the sound half of the claim.  After `Set(k, v, d)` and any
later calls that do not write `k`, a `Get(k)` that reports `found = true` returns `v`. -/
theorem cache.Get_found_returns_last_Set {α : Type} (c : cache α) (k : String)
    (v : Option α) (d t now : Int) (ops : List (Op α))
    (hops : ∀ op ∈ ops, op.leaves k)
    (hfound : (((c.Set k v d t).run ops).Get k now).2.1 = true) :
    (((c.Set k v d t).run ops).Get k now).1 = v := by
  rw [cache.Get_eq] at hfound ⊢
  rcases cache.lookup_run_cases k ops (c.Set k v d t) hops with h | h
  · rw [h, cache.lookup_Set]
  · rw [h] at hfound
    cases hfound

/-! ## The `SyncMap` counter and backend `Delete` -/

theorem GoMap.length_entries_eq_keys {β : Type} (s : GoMap β) :
    s.entries.length = s.keys.length := by
  unfold AList.keys List.keys
  rw [List.length_map]

theorem GoMap.length_insert_of_mem {β : Type} (s : GoMap β) (k : String) (x : β)
    (h : k ∈ s) : (s.insert k x).entries.length = s.entries.length := by
  rw [GoMap.length_entries_eq_keys, GoMap.length_entries_eq_keys, AList.keys_insert,
    List.length_cons, List.length_erase_of_mem (AList.mem_keys.mp h)]
  have : 0 < s.keys.length := List.length_pos_of_mem (AList.mem_keys.mp h)
  omega

theorem GoMap.length_insert_of_not_mem {β : Type} (s : GoMap β) (k : String) (x : β)
    (h : k ∉ s) : (s.insert k x).entries.length = s.entries.length + 1 := by
  rw [AList.insert_entries_of_neg h, List.length_cons]

theorem GoMap.length_erase_of_mem {β : Type} (s : GoMap β) (k : String)
    (h : k ∈ s) : ((s.erase k).entries.length : Int) = s.entries.length - 1 := by
  rw [GoMap.length_entries_eq_keys, GoMap.length_entries_eq_keys, AList.keys_erase,
    List.length_erase_of_mem (AList.mem_keys.mp h)]
  have : 0 < s.keys.length := List.length_pos_of_mem (AList.mem_keys.mp h)
  omega

theorem GoMap.erase_of_not_mem {β : Type} (s : GoMap β) (k : String)
    (h : k ∉ s) : s.erase k = s := by
  apply AList.ext
  show List.kerase k s.entries = s.entries
  exact List.kerase_of_not_mem_keys (fun hk => h (AList.mem_keys.mpr hk))

theorem wrapInt32_range (x : Int) : -(2 ^ 31) ≤ wrapInt32 x ∧ wrapInt32 x < 2 ^ 31 := by
  unfold wrapInt32
  omega

theorem wrapInt32_of_range (x : Int) (h1 : -(2 ^ 31) ≤ x) (h2 : x < 2 ^ 31) :
    wrapInt32 x = x := by
  unfold wrapInt32
  omega

theorem wrapInt32_add (x y : Int) : wrapInt32 (wrapInt32 x + y) = wrapInt32 (x + y) := by
  unfold wrapInt32
  omega

theorem SyncMap.count_run {β : Type} (ops : List (MapOp β)) :
    ∀ m : SyncMap β, -(2 ^ 31) ≤ m.count → m.count < 2 ^ 31 →
      (m.run ops).count
        = wrapInt32 (m.count + (MapOp.setCalls ops : Int) - (MapOp.deleteCalls ops : Int)) := by
  induction ops with
  | nil =>
    intro m h1 h2
    show m.count = _
    simp only [MapOp.setCalls, MapOp.deleteCalls]
    rw [wrapInt32_of_range _ (by omega) (by omega)]
    omega
  | cons op ops ih =>
    intro m h1 h2
    show ((m.step op).run ops).count = _
    cases op with
    | Get k =>
      show (m.run ops).count = _
      rw [ih m h1 h2]
      simp only [MapOp.setCalls, MapOp.deleteCalls]
    | Count =>
      show (m.run ops).count = _
      rw [ih m h1 h2]
      simp only [MapOp.setCalls, MapOp.deleteCalls]
    | Set k x =>
      have hr := wrapInt32_range (m.count + 1)
      show ((m.Set k x).run ops).count = _
      rw [ih (m.Set k x) hr.1 hr.2]
      show wrapInt32 (wrapInt32 (m.count + 1) + _ - _) = _
      simp only [MapOp.setCalls, MapOp.deleteCalls, Nat.cast_add, Nat.cast_one]
      rw [add_sub_assoc, wrapInt32_add]
      congr 1
      omega
    | Delete k =>
      have hr := wrapInt32_range (m.count + -1)
      show ((m.Delete k).run ops).count = _
      rw [ih (m.Delete k) hr.1 hr.2]
      show wrapInt32 (wrapInt32 (m.count + -1) + _ - _) = _
      simp only [MapOp.setCalls, MapOp.deleteCalls, Nat.cast_add, Nat.cast_one]
      rw [add_sub_assoc, wrapInt32_add]
      congr 1
      omega

theorem MapOp.setCalls_setAll {β : Type} (x : β) (keys : List String) :
    MapOp.setCalls (MapOp.setAll x keys) = keys.length ∧
      MapOp.deleteCalls (MapOp.setAll x keys) = 0 := by
  induction keys with
  | nil => exact ⟨rfl, rfl⟩
  | cons k ks ih =>
    constructor
    · show MapOp.setCalls (MapOp.setAll x ks) + 1 = _
      rw [ih.1, List.length_cons]
    · exact ih.2

theorem SyncMap.stored_setAll {β : Type} (x : β) (keys : List String) :
    ∀ m : SyncMap β, keys.Nodup → (∀ k ∈ keys, k ∉ m.items) →
      (m.run (MapOp.setAll x keys)).items.entries.length
        = m.items.entries.length + keys.length := by
  induction keys with
  | nil => intro m _ _; rfl
  | cons k ks ih =>
    intro m hnd hfresh
    rw [List.nodup_cons] at hnd
    show ((m.Set k x).run (MapOp.setAll x ks)).items.entries.length = _
    rw [ih (m.Set k x) hnd.2]
    · show (m.items.insert k x).entries.length + ks.length = _
      rw [GoMap.length_insert_of_not_mem _ _ _ (hfresh k (List.mem_cons_self _ _)),
        List.length_cons]
      omega
    · intro k1 hk1 hmem
      have : k1 ∈ m.items.insert k x := hmem
      rw [AList.mem_insert] at this
      rcases this with h | h
      · exact hnd.1 (h ▸ hk1)
      · exact hfresh k1 (List.mem_cons_of_mem _ hk1) h

/-- C11 (atomic-backend count is a call counter): for the `SyncMap` backend, after any
sequence of backend calls on a new map or on a map just flushed, `Count()` (and the
`ItemCount()` of a cache over it) is the number of `Set` calls minus the number of
`Delete` calls, wrapped to `int32`; after `Set` on `n` pairwise distinct keys of a new
map (`n` within `int32`) it is `n`, the number of stored keys; a `Set` on a key that is
already stored raises `Count()` by one and leaves the number of stored keys as it was,
so after `n` distinct keys and one overwrite `Count()` exceeds the number of stored keys
by one. -/
theorem C11_syncmap_count_is_call_counter {α : Type} (m0 m : SyncMap (Item α))
    (ops : List (MapOp (Item α))) (de : Int) (j : Option janitor)
    (x : Item α) (keys : List String) (k k1 : String)
    (hnd : keys.Nodup) (hlen : (keys.length : Int) + 1 < 2 ^ 31)
    (hk : k ∈ m.items) (hm : -(2 ^ 31) ≤ m.count ∧ m.count + 1 < 2 ^ 31)
    (hk1 : k1 ∈ keys) :
    (NewSyncMap.run ops).Count
      = wrapInt32 ((MapOp.setCalls ops : Int) - (MapOp.deleteCalls ops : Int)) ∧
    (m0.Flush.run ops).Count
      = wrapInt32 ((MapOp.setCalls ops : Int) - (MapOp.deleteCalls ops : Int)) ∧
    (cache.mk de (CacheMap.sync (NewSyncMap.run ops)) j).ItemCount
      = wrapInt32 ((MapOp.setCalls ops : Int) - (MapOp.deleteCalls ops : Int)) ∧
    (NewSyncMap.run (MapOp.setAll x keys)).Count = keys.length ∧
    (NewSyncMap.run (MapOp.setAll x keys)).items.entries.length = keys.length ∧
    (m.Set k x).Count = m.Count + 1 ∧
    (m.Set k x).items.entries.length = m.items.entries.length ∧
    ((NewSyncMap.run (MapOp.setAll x keys)).Set k1 x).Count
      = (((NewSyncMap.run (MapOp.setAll x keys)).Set k1 x).items.entries.length : Int) + 1 := by
  have h0a : -(2 ^ 31 : Int) ≤ 0 := by decide
  have h0b : (0 : Int) < 2 ^ 31 := by decide
  have hnew : ∀ o : List (MapOp (Item α)), ((NewSyncMap : SyncMap (Item α)).run o).Count
      = wrapInt32 ((MapOp.setCalls o : Int) - (MapOp.deleteCalls o : Int)) := by
    intro o
    have h := SyncMap.count_run o (NewSyncMap : SyncMap (Item α)) h0a h0b
    show ((NewSyncMap : SyncMap (Item α)).run o).count = _
    rw [h]
    show wrapInt32 (0 + _ - _) = _
    rw [zero_add]
  have hstored : ((NewSyncMap : SyncMap (Item α)).run (MapOp.setAll x keys)).items.entries.length
      = keys.length := by
    rw [SyncMap.stored_setAll x keys NewSyncMap hnd (fun k _ => AList.not_mem_empty k)]
    show 0 + keys.length = keys.length
    omega
  have hcount : ((NewSyncMap : SyncMap (Item α)).run (MapOp.setAll x keys)).Count
      = keys.length := by
    rw [hnew, (MapOp.setCalls_setAll x keys).1, (MapOp.setCalls_setAll x keys).2]
    exact wrapInt32_of_range _ (by omega) (by omega)
  have hmemk1 : ∀ ks : List String, ∀ s : SyncMap (Item α), k1 ∈ ks ∨ k1 ∈ s.items →
      k1 ∈ (s.run (MapOp.setAll x ks)).items := by
    intro ks
    induction ks with
    | nil =>
      intro s h
      rcases h with h | h
      · cases h
      · exact h
    | cons a as ih =>
      intro s h
      show k1 ∈ ((s.Set a x).run (MapOp.setAll x as)).items
      apply ih
      by_cases ha : k1 = a
      · right
        show k1 ∈ s.items.insert a x
        rw [AList.mem_insert]; exact Or.inl ha
      · rcases h with h | h
        · left
          rcases List.mem_cons.mp h with h | h
          · exact absurd h ha
          · exact h
        · right
          show k1 ∈ s.items.insert a x
          rw [AList.mem_insert]; exact Or.inr h
  refine ⟨hnew ops, ?_, hnew ops, hcount, hstored, ?_, ?_, ?_⟩
  · have h := SyncMap.count_run ops m0.Flush h0a h0b
    show (m0.Flush.run ops).count = _
    rw [h]
    show wrapInt32 (0 + _ - _) = _
    rw [zero_add]
  · show wrapInt32 (m.count + 1) = m.count + 1
    exact wrapInt32_of_range _ (by omega) hm.2
  · exact GoMap.length_insert_of_mem _ _ _ hk
  · have hin := hmemk1 keys NewSyncMap (Or.inl hk1)
    show wrapInt32 (((NewSyncMap : SyncMap (Item α)).run (MapOp.setAll x keys)).Count + 1) = _
    rw [hcount, wrapInt32_of_range _ (by omega) hlen]
    have : (((NewSyncMap : SyncMap (Item α)).run (MapOp.setAll x keys)).Set k1 x).items.entries.length
        = keys.length := by
      rw [← hstored]
      exact GoMap.length_insert_of_mem _ _ _ hin
    rw [this]

/-- Witness for C11: three distinct keys `foo`, `bar`, `baz` on a new `SyncMap` give count 3;
setting `foo` again gives count 4 with 3 stored keys. -/
theorem C11_syncmap_count_is_call_counter_witness :
    ((NewSyncMap : SyncMap (Item Nat)).run
        (MapOp.setAll { Object := some 1, Expiration := 0 } ["foo", "bar", "baz"])).Count
      = 3 ∧
    (((NewSyncMap : SyncMap (Item Nat)).run
        (MapOp.setAll { Object := some 1, Expiration := 0 } ["foo", "bar", "baz"])).Set "foo"
        { Object := some 1, Expiration := 0 }).Count = 4 :=
  ⟨(C11_syncmap_count_is_call_counter NewSyncMap
      ((NewSyncMap : SyncMap (Item Nat)).Set "foo" { Object := some 1, Expiration := 0 })
      [MapOp.Set "a" { Object := some 1, Expiration := 0 }, MapOp.Delete "b"] 0 none
      { Object := some 1, Expiration := 0 } ["foo", "bar", "baz"] "foo" "foo"
      (by decide) (by decide) (by decide) (by decide) (by decide)).2.2.2.1,
   ((C11_syncmap_count_is_call_counter NewSyncMap
      ((NewSyncMap : SyncMap (Item Nat)).Set "foo" { Object := some 1, Expiration := 0 })
      [MapOp.Set "a" { Object := some 1, Expiration := 0 }, MapOp.Delete "b"] 0 none
      { Object := some 1, Expiration := 0 } ["foo", "bar", "baz"] "foo" "foo"
      (by decide) (by decide) (by decide) (by decide) (by decide)).2.2.2.2.2.2.2).trans
      (by decide)⟩

/-- C12 (backend delete is a no-op on an absent key): the claim fails on the code for the
`SyncMap` backend.  On a new cache over `SyncMap` the key `"x"` is not stored, yet
`Delete("x")` changes the observation `Count()`, and so `ItemCount()`, from 0 to -1;
over `RwmMap` and `ConcurrentMap` the same call leaves the count at 0. -/
theorem C12_syncmap_delete_absent_changes_count :
    "x" ∉ (CacheMap.sync (NewSyncMap : SyncMap Nat)).items ∧
    (CacheMap.sync (NewSyncMap : SyncMap Nat)).Count = 0 ∧
    ((CacheMap.sync (NewSyncMap : SyncMap Nat)).Delete "x").Count = -1 ∧
    (New 0 0 (CacheMap.sync NewSyncMap) : cache Nat).ItemCount = 0 ∧
    ((New 0 0 (CacheMap.sync NewSyncMap) : cache Nat).Delete "x").ItemCount = -1 ∧
    ((New 0 0 (CacheMap.rwm NewRwmMap) : cache Nat).Delete "x").ItemCount = 0 ∧
    ((New 0 0 (CacheMap.concurrent NewConcurrentMap) : cache Nat).Delete "x").ItemCount = 0 := by
  refine ⟨AList.not_mem_empty _, ?_, ?_, ?_, ?_, ?_, ?_⟩ <;> decide

/-- Frame of `Delete` on an absent key: in every state of every backend, `Delete(k)` of
a key that is not stored leaves the stored pairs (those visited by `Range`) and the
result of `Get(k1)` for every key unchanged; it leaves `Count()` unchanged for `RwmMap`
and `ConcurrentMap`, while `SyncMap` lowers its counter by one (wrapping in `int32`). -/
theorem CacheMap.Delete_absent_key {β : Type} (m : CacheMap β) (k k1 : String)
    (ha : k ∉ m.items) :
    (m.Delete k).items = m.items ∧
    (m.Delete k).Get k1 = m.Get k1 ∧
    (m.Delete k).Count
      = (match m with
         | CacheMap.sync s => wrapInt32 (s.count + -1)
         | _ => m.Count) := by
  have hitems : (m.Delete k).items = m.items := by
    rw [CacheMap.backend_items_Delete]
    exact GoMap.erase_of_not_mem _ _ ha
  refine ⟨hitems, ?_, ?_⟩
  · rw [CacheMap.backend_Get_eq, CacheMap.backend_Get_eq, hitems]
  · cases m with
    | rwm r =>
      have ha1 : k ∉ r.items := ha
      show ((r.items.erase k).entries.length : Int) = r.items.entries.length
      rw [GoMap.erase_of_not_mem _ _ ha1]
    | sync s => rfl
    | concurrent c =>
      have ha1 : k ∉ c.items := ha
      show ((c.items.erase k).entries.length : Int) = c.items.entries.length
      rw [GoMap.erase_of_not_mem _ _ ha1]

/-- Effect of `Delete` on a stored key: in every state of every backend, `Delete(k)` of
a stored key makes `Get(k)` not-found, leaves every other key's entry as it was, and
lowers `Count()` by exactly one for `RwmMap` and `ConcurrentMap` (`SyncMap`: by one,
wrapping in `int32`). -/
theorem CacheMap.Delete_stored_key {β : Type} (m : CacheMap β) (k k1 : String)
    (hs : k ∈ m.items) :
    (m.Delete k).Get k = (none, false) ∧
    (m.Delete k).items.lookup k1 = (if k1 = k then none else m.items.lookup k1) ∧
    (m.Delete k).Count
      = (match m with
         | CacheMap.sync s => wrapInt32 (s.count + -1)
         | _ => m.Count - 1) := by
  refine ⟨?_, ?_, ?_⟩
  · rw [CacheMap.backend_Get_eq, CacheMap.backend_items_Delete, AList.lookup_erase]
  · rw [CacheMap.backend_items_Delete]
    by_cases h : k1 = k
    · rw [if_pos h, h, AList.lookup_erase]
    · rw [if_neg h, AList.lookup_erase_ne h]
  · cases m with
    | rwm r => exact GoMap.length_erase_of_mem _ _ hs
    | sync s => rfl
    | concurrent c => exact GoMap.length_erase_of_mem _ _ hs

/-! ## The LRU cache: consistency of index and recency list -/

theorem mem_listMoveToFront (l : List Nat) (p q : Nat) :
    q ∈ listMoveToFront l p ↔ q ∈ l := by
  unfold listMoveToFront
  split
  · rename_i hp
    by_cases hq : q = p
    · subst hq; simp [hp]
    · rw [List.mem_cons, List.mem_erase_of_ne hq]
      constructor
      · rintro (h | h)
        · exact absurd h hq
        · exact h
      · intro h; exact Or.inr h
  · rfl

theorem nodup_listMoveToFront (l : List Nat) (p : Nat) (h : l.Nodup) :
    (listMoveToFront l p).Nodup := by
  unfold listMoveToFront
  split
  · rw [List.nodup_cons]
    refine ⟨fun hm => ?_, h.erase p⟩
    exact ((h.mem_erase_iff).mp hm).1 rfl
  · exact h

theorem length_listMoveToFront (l : List Nat) (p : Nat) :
    (listMoveToFront l p).length = l.length := by
  unfold listMoveToFront
  split
  · rename_i hp
    rw [List.length_cons, List.length_erase_of_mem hp]
    have := List.length_pos_of_mem hp
    omega
  · rfl

theorem LRUCache.keyAt_lt {α : Type} (c : LRUCache α) (p : Nat) (k : String)
    (h : c.keyAt p = some k) : p < c.elems.length := by
  unfold LRUCache.keyAt at h
  by_contra hge
  rw [List.getElem?_eq_none (by omega)] at h
  cases h

theorem LRUCache.keyAt_item {α : Type} (c : LRUCache α) (p : Nat) (k : String)
    (h : c.keyAt p = some k) : ∃ item, c.elems[p]? = some item ∧ item.key = k := by
  unfold LRUCache.keyAt at h
  cases he : c.elems[p]? with
  | none => rw [he] at h; cases h
  | some item =>
    rw [he] at h
    exact ⟨item, rfl, Option.some.inj h⟩

theorem LRUCache.Consistent.of_same {α : Type} {c : LRUCache α} (h : c.Consistent)
    (c1 : LRUCache α) (hc : c1.cache = c.cache) (hk : ∀ p, c1.keyAt p = c.keyAt p)
    (hn : c1.lruList.Nodup) (hm : ∀ p, p ∈ c1.lruList ↔ p ∈ c.lruList) :
    c1.Consistent where
  nodup := hn
  index_to_list := by
    intro k p hl
    rw [hc] at hl
    obtain ⟨h1, h2⟩ := h.index_to_list k p hl
    exact ⟨(hm p).mpr h1, (hk p).trans h2⟩
  list_to_index := by
    intro p hp
    obtain ⟨k, h1, h2⟩ := h.list_to_index p ((hm p).mp hp)
    exact ⟨k, (hk p).trans h1, by rw [hc]; exact h2⟩

theorem LRUCache.Consistent.touch {α : Type} {c : LRUCache α} (h : c.Consistent) (p : Nat) :
    ({ c with lruList := listMoveToFront c.lruList p } : LRUCache α).Consistent :=
  h.of_same _ rfl (fun _ => rfl) (nodup_listMoveToFront _ _ h.nodup)
    (fun q => mem_listMoveToFront _ _ q)

theorem keyAt_modify {α : Type} (c : LRUCache α) (l : List Nat) (p q : Nat)
    (v : Option α) (e : Int) :
    ({ c with
        lruList := l
        elems := c.elems.modify (fun item => { item with expireAt := e, value := v }) p }
      : LRUCache α).keyAt q = c.keyAt q := by
  unfold LRUCache.keyAt
  show Option.map _ ((List.modify _ p c.elems)[q]?) = _
  rw [List.getElem?_modify]
  cases c.elems[q]? with
  | none => rfl
  | some item =>
    by_cases hpq : p = q <;> simp [hpq]

theorem LRUCache.Consistent.refresh {α : Type} {c : LRUCache α} (h : c.Consistent)
    (p : Nat) (v : Option α) (e : Int) :
    ({ c with
        lruList := listMoveToFront c.lruList p
        elems := c.elems.modify (fun item => { item with expireAt := e, value := v }) p }
      : LRUCache α).Consistent :=
  h.of_same _ rfl (fun q => keyAt_modify c _ p q v e) (nodup_listMoveToFront _ _ h.nodup)
    (fun q => mem_listMoveToFront _ _ q)

theorem LRUCache.Consistent.remove {α : Type} {c : LRUCache α} (h : c.Consistent)
    (k : String) (p : Nat) (hl : c.cache.lookup k = some p) :
    ({ c with lruList := listRemove c.lruList p, cache := c.cache.erase k }
      : LRUCache α).Consistent where
  nodup := h.nodup.erase p
  index_to_list := by
    intro k1 p1 hl1
    have hne : k1 ≠ k := by
      intro heq
      rw [heq] at hl1
      have : (c.cache.erase k).lookup k = none := AList.lookup_erase k c.cache
      rw [this] at hl1
      cases hl1
    have hl2 : c.cache.lookup k1 = some p1 := by
      rw [← AList.lookup_erase_ne hne]; exact hl1
    obtain ⟨h1, h2⟩ := h.index_to_list k1 p1 hl2
    refine ⟨?_, h2⟩
    have hpne : p1 ≠ p := by
      intro heq
      rw [heq] at h2
      have := (h.index_to_list k p hl).2
      rw [h2] at this
      exact hne (Option.some.inj this)
    exact (List.mem_erase_of_ne hpne).mpr h1
  list_to_index := by
    intro p1 hp1
    have hmem := (h.nodup.mem_erase_iff).mp hp1
    obtain ⟨k1, h1, h2⟩ := h.list_to_index p1 hmem.2
    refine ⟨k1, h1, ?_⟩
    have hne : k1 ≠ k := by
      intro heq
      rw [heq, hl] at h2
      exact hmem.1 (Option.some.inj h2).symm
    show (c.cache.erase k).lookup k1 = some p1
    rw [AList.lookup_erase_ne hne]; exact h2

theorem LRUCache.Consistent.fresh {α : Type} {c : LRUCache α} (h : c.Consistent) :
    c.elems.length ∉ c.lruList := by
  intro hm
  obtain ⟨k, h1, _⟩ := h.list_to_index _ hm
  have := c.keyAt_lt _ k h1
  omega

theorem LRUCache.Consistent.push {α : Type} {c : LRUCache α} (h : c.Consistent)
    (k : String) (v : Option α) (e : Int) (hl : c.cache.lookup k = none) :
    ({ c with
        elems := c.elems ++ [{ key := k, value := v, expireAt := e }]
        lruList := listPushFront c.lruList c.elems.length
        cache := c.cache.insert k c.elems.length } : LRUCache α).Consistent where
  nodup := by
    show (c.elems.length :: c.lruList).Nodup
    exact List.nodup_cons.mpr ⟨h.fresh, h.nodup⟩
  index_to_list := by
    intro k1 p1 hl1
    have hl1 : (c.cache.insert k c.elems.length).lookup k1 = some p1 := hl1
    by_cases hk : k1 = k
    · subst hk
      rw [AList.lookup_insert] at hl1
      have hp : p1 = c.elems.length := (Option.some.inj hl1).symm
      subst hp
      refine ⟨List.mem_cons_self _ _, ?_⟩
      show Option.map _ ((c.elems ++ [_])[c.elems.length]?) = _
      rw [List.getElem?_concat_length]
      rfl
    · rw [AList.lookup_insert_ne hk] at hl1
      obtain ⟨h1, h2⟩ := h.index_to_list k1 p1 hl1
      refine ⟨List.mem_cons_of_mem _ h1, ?_⟩
      show Option.map _ ((c.elems ++ [_])[p1]?) = _
      rw [List.getElem?_append_left (c.keyAt_lt p1 k1 h2)]
      exact h2
  list_to_index := by
    intro p1 hp1
    have hp1 : p1 ∈ c.elems.length :: c.lruList := hp1
    rcases List.mem_cons.mp hp1 with hp | hp
    · subst hp
      refine ⟨k, ?_, ?_⟩
      · show Option.map _ ((c.elems ++ [_])[c.elems.length]?) = _
        rw [List.getElem?_concat_length]
        rfl
      · show (c.cache.insert k c.elems.length).lookup k = _
        rw [AList.lookup_insert]
    · obtain ⟨k1, h1, h2⟩ := h.list_to_index p1 hp
      refine ⟨k1, ?_, ?_⟩
      · show Option.map _ ((c.elems ++ [_])[p1]?) = _
        rw [List.getElem?_append_left (c.keyAt_lt p1 k1 h1)]
        exact h1
      · have hne : k1 ≠ k := by
          intro heq
          rw [heq, hl] at h2
          cases h2
        show (c.cache.insert k c.elems.length).lookup k1 = _
        rw [AList.lookup_insert_ne hne]; exact h2

theorem LRUCache.Consistent.pushed_ok {α : Type} {c : LRUCache α} (h : c.Consistent)
    (k : String) (v : Option α) (now : Int) (hl : c.cache.lookup k = none) :
    (c.pushed k v now).Consistent :=
  h.push k v (now + c.expireTime) hl

theorem LRUCache.Consistent.removed_ok {α : Type} {c : LRUCache α} (h : c.Consistent)
    (k : String) (p : Nat) (hl : c.cache.lookup k = some p) :
    (c.removed k p).Consistent :=
  h.remove k p hl

theorem LRUCache.Set_hit {α : Type} (c : LRUCache α) (k : String) (v : Option α)
    (now : Int) (p : Nat) (hl : c.cache.lookup k = some p) :
    c.Set k v now =
      { c with
        lruList := listMoveToFront c.lruList p
        elems := c.elems.modify
          (fun item => { item with expireAt := now + c.expireTime, value := v }) p } := by
  unfold LRUCache.Set
  rw [hl]

theorem LRUCache.Set_miss_keep {α : Type} (c : LRUCache α) (k : String) (v : Option α)
    (now : Int) (hl : c.cache.lookup k = none)
    (hcap : ¬ ((c.lruList.length : Int) + 1 > c.maxItems)) :
    c.Set k v now = c.pushed k v now := by
  unfold LRUCache.Set
  rw [hl]
  have hlen : ¬ (((listPushFront c.lruList c.elems.length).length : Int) > c.maxItems) := by
    unfold listPushFront
    rw [List.length_cons]
    push_cast
    exact hcap
  simp only [if_neg hlen]
  rfl

theorem LRUCache.Set_miss_evict {α : Type} {c : LRUCache α} (h : c.Consistent)
    (k : String) (v : Option α) (now : Int) (hl : c.cache.lookup k = none)
    (hcap : (c.lruList.length : Int) + 1 > c.maxItems) :
    ∃ back kb, listBack (c.pushed k v now).lruList = some back ∧
      (c.pushed k v now).keyAt back = some kb ∧
      (c.pushed k v now).cache.lookup kb = some back ∧
      c.Set k v now = (c.pushed k v now).removed kb back := by
  have hc1 := h.pushed_ok k v now hl
  have hne : (c.pushed k v now).lruList ≠ [] := by
    show c.elems.length :: c.lruList ≠ []
    exact List.cons_ne_nil _ _
  obtain ⟨back, hback⟩ : ∃ back, listBack (c.pushed k v now).lruList = some back :=
    ⟨_, List.getLast?_eq_getLast _ hne⟩
  have hmem : back ∈ (c.pushed k v now).lruList := List.mem_of_mem_getLast? hback
  obtain ⟨kb, hkb, hlk⟩ := hc1.list_to_index back hmem
  obtain ⟨item, hitem, hkey⟩ := (c.pushed k v now).keyAt_item back kb hkb
  refine ⟨back, kb, hback, hkb, hlk, ?_⟩
  unfold LRUCache.Set
  rw [hl]
  have hlen : ((listPushFront c.lruList c.elems.length).length : Int) > c.maxItems := by
    unfold listPushFront
    rw [List.length_cons]
    push_cast
    exact hcap
  have hback1 : listBack (listPushFront c.lruList c.elems.length) = some back := hback
  have hitem1 : (c.elems ++ [({ key := k, value := v, expireAt := now + c.expireTime }
      : CacheItem α)])[back]? = some item := hitem
  simp only [if_pos hlen, hback1, hitem1, hkey]
  rfl

theorem LRUCache.Delete_hit {α : Type} (c : LRUCache α) (k : String) (p : Nat)
    (hl : c.cache.lookup k = some p) : c.Delete k = c.removed k p := by
  unfold LRUCache.Delete
  rw [hl]
  rfl

theorem LRUCache.Delete_miss {α : Type} (c : LRUCache α) (k : String)
    (hl : c.cache.lookup k = none) : c.Delete k = c := by
  unfold LRUCache.Delete
  rw [hl]

theorem LRUCache.Get_hit {α : Type} (c : LRUCache α) (k : String) (now : Int) (p : Nat)
    (item : CacheItem α) (hl : c.cache.lookup k = some p) (hi : c.elems[p]? = some item)
    (hx : item.isExpired now = false) :
    c.Get k now = (item.value, true, { c with lruList := listMoveToFront c.lruList p }) := by
  unfold LRUCache.Get
  rw [hl]
  simp only [hi, hx, Bool.not_false, if_true]

theorem LRUCache.Get_cases {α : Type} (c : LRUCache α) (k : String) (now : Int) :
    c.Get k now = (none, false, c) ∨
    ∃ p item, c.cache.lookup k = some p ∧ c.elems[p]? = some item ∧
      item.isExpired now = false ∧
      c.Get k now = (item.value, true, { c with lruList := listMoveToFront c.lruList p }) := by
  cases hl : c.cache.lookup k with
  | none => left; exact c.Get_miss k now (Or.inl hl)
  | some p =>
    rcases hi : c.elems[p]? with _ | item
    · left
      unfold LRUCache.Get
      rw [hl]
      simp only [hi]
    · cases hx : item.isExpired now
      · right
        exact ⟨p, item, rfl, hi, hx, c.Get_hit k now p item hl hi hx⟩
      · left
        exact c.Get_miss k now (Or.inr ⟨p, item, hl, hi, hx⟩)

theorem LRUCache.gcPass_eq_fold {α : Type} (c : LRUCache α) (clock : String → Int) :
    c.gcPass clock = c.cache.entries.foldl (LRUCache.gcVisit clock) c := by
  unfold LRUCache.gcPass
  congr 1
  funext acc e
  unfold LRUCache.gcVisit LRUCache.expiredAt
  rcases hi : acc.elems[e.2]? with _ | item
  · simp only [hi]
    rfl
  · simp only [hi]
    rfl

theorem LRUCache.gcVisit_fields {α : Type} (clock : String → Int) (acc : LRUCache α)
    (e : Sigma (fun _ : String => Nat)) :
    (LRUCache.gcVisit clock acc e).elems = acc.elems ∧
    (LRUCache.gcVisit clock acc e).maxItems = acc.maxItems ∧
    (LRUCache.gcVisit clock acc e).expireTime = acc.expireTime ∧
    (LRUCache.gcVisit clock acc e).cleanTime = acc.cleanTime := by
  unfold LRUCache.gcVisit
  split <;> exact ⟨rfl, rfl, rfl, rfl⟩

theorem LRUCache.gc_fold_fields {α : Type} (clock : String → Int) :
    ∀ (es : List (Sigma (fun _ : String => Nat))) (acc : LRUCache α),
      (es.foldl (LRUCache.gcVisit clock) acc).elems = acc.elems ∧
      (es.foldl (LRUCache.gcVisit clock) acc).maxItems = acc.maxItems ∧
      (es.foldl (LRUCache.gcVisit clock) acc).expireTime = acc.expireTime ∧
      (es.foldl (LRUCache.gcVisit clock) acc).cleanTime = acc.cleanTime := by
  intro es
  induction es with
  | nil => intro acc; exact ⟨rfl, rfl, rfl, rfl⟩
  | cons e es ih =>
    intro acc
    rw [List.foldl_cons]
    obtain ⟨h1, h2, h3, h4⟩ := ih (LRUCache.gcVisit clock acc e)
    obtain ⟨g1, g2, g3, g4⟩ := LRUCache.gcVisit_fields clock acc e
    exact ⟨h1.trans g1, h2.trans g2, h3.trans g3, h4.trans g4⟩

theorem LRUCache.expiredAt_congr {α : Type} (c c1 : LRUCache α) (now : Int) (p : Nat)
    (h : c1.elems = c.elems) : c1.expiredAt now p = c.expiredAt now p := by
  unfold LRUCache.expiredAt
  rw [h]

theorem LRUCache.expiredSeen_congr {α : Type} (c c1 : LRUCache α) (clock : String → Int)
    (p : Nat) (h : c1.elems = c.elems) : c1.expiredSeen clock p = c.expiredSeen clock p := by
  unfold LRUCache.expiredSeen
  rw [h]

theorem LRUCache.expiredSeen_const {α : Type} (c : LRUCache α) (now : Int) (p : Nat) :
    c.expiredSeen (fun _ => now) p = c.expiredAt now p := rfl

theorem LRUCache.Consistent.expiredSeen_eq {α : Type} {c : LRUCache α} (h : c.Consistent)
    (clock : String → Int) (k : String) (p : Nat) (hl : c.cache.lookup k = some p) :
    c.expiredSeen clock p = c.expiredAt (clock k) p := by
  obtain ⟨item, hi, hk⟩ := c.keyAt_item p k (h.index_to_list k p hl).2
  unfold LRUCache.expiredSeen LRUCache.expiredAt
  simp only [hi, hk]

theorem LRUCache.gcVisit_lookup {α : Type} (clock : String → Int) (acc : LRUCache α)
    (e : Sigma (fun _ : String => Nat)) (k : String) :
    (LRUCache.gcVisit clock acc e).cache.lookup k
      = if acc.expiredAt (clock e.1) e.2 = true ∧ k = e.1 then none
        else acc.cache.lookup k := by
  unfold LRUCache.gcVisit
  by_cases hx : acc.expiredAt (clock e.1) e.2 = true
  · rw [if_pos hx]
    show (acc.cache.erase e.1).lookup k = _
    by_cases hk : k = e.1
    · rw [if_pos ⟨hx, hk⟩, hk, AList.lookup_erase]
    · rw [if_neg (fun h => hk h.2), AList.lookup_erase_ne hk]
  · rw [if_neg hx, if_neg (fun h => hx h.1)]

theorem LRUCache.gc_fold_spec {α : Type} (clock : String → Int) :
    ∀ (es : List (Sigma (fun _ : String => Nat))) (acc : LRUCache α),
      es.NodupKeys → (∀ e ∈ es, acc.cache.lookup e.1 = some e.2) → acc.Consistent →
      (es.foldl (LRUCache.gcVisit clock) acc).Consistent ∧
      (es.foldl (LRUCache.gcVisit clock) acc).lruList
        = acc.lruList.filter
            (fun p => !(decide (p ∈ es.map (fun e => e.2)) && acc.expiredSeen clock p)) ∧
      ∀ k, (es.foldl (LRUCache.gcVisit clock) acc).cache.lookup k
        = (acc.cache.lookup k).filter
            (fun p => !(decide (k ∈ es.map (fun e => e.1)) && acc.expiredSeen clock p)) := by
  intro es
  induction es with
  | nil =>
    intro acc _ _ hc
    refine ⟨hc, ?_, ?_⟩
    · show acc.lruList = _
      simp
    · intro k
      show acc.cache.lookup k = _
      cases acc.cache.lookup k <;> simp [Option.filter]
  | cons e es ih =>
    intro acc hnd hlk hc
    rw [List.nodupKeys_cons] at hnd
    have he : acc.cache.lookup e.1 = some e.2 := hlk e (List.mem_cons_self _ _)
    have hkeys : ∀ e1 ∈ es, e1.1 ≠ e.1 := by
      intro e1 he1 heq
      exact hnd.1 (heq ▸ List.mem_keys_of_mem he1)
    have hlk1 : ∀ e1 ∈ es, (LRUCache.gcVisit clock acc e).cache.lookup e1.1 = some e1.2 := by
      intro e1 he1
      rw [LRUCache.gcVisit_lookup, if_neg (fun h => hkeys e1 he1 h.2)]
      exact hlk e1 (List.mem_cons_of_mem _ he1)
    have hc1 : (LRUCache.gcVisit clock acc e).Consistent := by
      unfold LRUCache.gcVisit
      split
      · exact hc.removed_ok e.1 e.2 he
      · exact hc
    have hexp : ∀ p, (LRUCache.gcVisit clock acc e).expiredSeen clock p
        = acc.expiredSeen clock p :=
      fun p => LRUCache.expiredSeen_congr _ _ clock p (LRUCache.gcVisit_fields clock acc e).1
    have hbr : acc.expiredSeen clock e.2 = acc.expiredAt (clock e.1) e.2 :=
      hc.expiredSeen_eq clock e.1 e.2 he
    obtain ⟨r1, r2, r3⟩ := ih (LRUCache.gcVisit clock acc e) hnd.2 hlk1 hc1
    rw [List.foldl_cons]
    refine ⟨r1, ?_, ?_⟩
    · rw [r2]
      by_cases hx : acc.expiredAt (clock e.1) e.2 = true
      · have hxs : acc.expiredSeen clock e.2 = true := hbr.trans hx
        have hl : (LRUCache.gcVisit clock acc e).lruList
            = acc.lruList.filter (fun x => x != e.2) := by
          unfold LRUCache.gcVisit
          rw [if_pos hx]
          exact hc.nodup.erase_eq_filter e.2
        rw [hl, List.filter_filter]
        apply List.filter_congr
        intro p _
        rw [hexp p]
        by_cases hp : p = e.2
        · subst hp
          simp [hxs]
        · by_cases hm : p ∈ List.map (fun e => e.snd) es <;>
            cases hq : acc.expiredSeen clock p <;> simp [hp, hm, hq]
      · have hxs : ¬ acc.expiredSeen clock e.2 = true := fun h => hx (hbr.symm.trans h)
        have hl : (LRUCache.gcVisit clock acc e).lruList = acc.lruList := by
          unfold LRUCache.gcVisit
          rw [if_neg hx]
        rw [hl]
        apply List.filter_congr
        intro p _
        rw [hexp p]
        by_cases hp : p = e.2
        · subst hp
          simp [hxs]
        · by_cases hm : p ∈ List.map (fun e => e.snd) es <;>
            cases hq : acc.expiredSeen clock p <;> simp [hp, hm, hq]
    · intro k
      rw [r3, LRUCache.gcVisit_lookup]
      by_cases hx : acc.expiredAt (clock e.1) e.2 = true
      · have hxs : acc.expiredSeen clock e.2 = true := hbr.trans hx
        by_cases hk : k = e.1
        · subst hk
          rw [if_pos ⟨hx, rfl⟩, he]
          simp [Option.filter, hxs]
        · rw [if_neg (fun h => hk h.2)]
          cases acc.cache.lookup k with
          | none => simp [Option.filter]
          | some p =>
            by_cases hm : k ∈ List.map (fun e => e.fst) es <;>
              cases hq : acc.expiredSeen clock p <;>
                simp [Option.filter, hk, hexp p, hm, hq]
      · have hxs : ¬ acc.expiredSeen clock e.2 = true := fun h => hx (hbr.symm.trans h)
        rw [if_neg (fun h => hx h.1)]
        cases hl : acc.cache.lookup k with
        | none => simp [Option.filter]
        | some p =>
          by_cases hk : k = e.1
          · subst hk
            rw [he] at hl
            have hp : p = e.2 := (Option.some.inj hl).symm
            subst hp
            simp [Option.filter, hxs, hexp]
          · by_cases hm : k ∈ List.map (fun e => e.fst) es <;>
              cases hq : acc.expiredSeen clock p <;>
                simp [Option.filter, hk, hexp p, hm, hq]

theorem GoMap.lookup_of_mem_entries {β : Type} (s : GoMap β)
    (e : Sigma (fun _ : String => β)) (he : e ∈ s.entries) : s.lookup e.1 = some e.2 := by
  have : e.2 ∈ s.lookup e.1 := AList.mem_lookup_iff.mpr (by cases e; exact he)
  exact this

theorem GoMap.mem_entries_of_lookup {β : Type} (s : GoMap β) (k : String) (b : β)
    (h : s.lookup k = some b) : (⟨k, b⟩ : Sigma (fun _ : String => β)) ∈ s.entries :=
  AList.mem_lookup_iff.mp h

theorem LRUCache.gcPass_spec {α : Type} {c : LRUCache α} (h : c.Consistent)
    (clock : String → Int) :
    (c.gcPass clock).Consistent ∧
    (c.gcPass clock).elems = c.elems ∧
    (c.gcPass clock).maxItems = c.maxItems ∧
    (c.gcPass clock).expireTime = c.expireTime ∧
    (c.gcPass clock).lruList = c.lruList.filter (fun p => !c.expiredSeen clock p) ∧
    ∀ k, (c.gcPass clock).cache.lookup k
      = (c.cache.lookup k).filter (fun p => !c.expiredSeen clock p) := by
  rw [LRUCache.gcPass_eq_fold]
  obtain ⟨f1, f2, f3, _⟩ := LRUCache.gc_fold_fields clock c.cache.entries c
  obtain ⟨r1, r2, r3⟩ := LRUCache.gc_fold_spec clock c.cache.entries c c.cache.nodupKeys
    (fun e he => GoMap.lookup_of_mem_entries c.cache e he) h
  refine ⟨r1, f1, f2, f3, ?_, ?_⟩
  · rw [r2]
    apply List.filter_congr
    intro p hp
    obtain ⟨k, _, hk⟩ := h.list_to_index p hp
    have hm : p ∈ c.cache.entries.map (fun e => e.2) :=
      List.mem_map.mpr ⟨⟨k, p⟩, GoMap.mem_entries_of_lookup c.cache k p hk, rfl⟩
    simp [hm]
  · intro k
    rw [r3]
    cases hl : c.cache.lookup k with
    | none => simp [Option.filter]
    | some p =>
      have hm : k ∈ c.cache.entries.map (fun e => e.1) :=
        List.mem_map.mpr ⟨⟨k, p⟩, GoMap.mem_entries_of_lookup c.cache k p hl, rfl⟩
      simp [Option.filter, hm]

theorem LRUCache.Consistent.indexSize_eq {α : Type} {c : LRUCache α} (h : c.Consistent) :
    c.indexSize = c.lruList.length := by
  unfold LRUCache.indexSize
  have hnd : (c.cache.entries.map (fun e => e.2)).Nodup := by
    apply List.Nodup.map_on _ c.cache.nodupKeys.nodup
    intro x hx y hy hxy
    have h1 := (h.index_to_list x.1 x.2 (GoMap.lookup_of_mem_entries c.cache x hx)).2
    have h2 := (h.index_to_list y.1 y.2 (GoMap.lookup_of_mem_entries c.cache y hy)).2
    have hxy1 : x.2 = y.2 := hxy
    rw [hxy1, h2] at h1
    have hk : y.1 = x.1 := Option.some.inj h1
    cases x; cases y
    simp only at hk hxy1
    subst hk; subst hxy1
    rfl
  have hperm : (c.cache.entries.map (fun e => e.2)).Perm c.lruList := by
    rw [List.perm_ext_iff_of_nodup hnd h.nodup]
    intro p
    constructor
    · intro hp
      obtain ⟨e, he, rfl⟩ := List.mem_map.mp hp
      exact (h.index_to_list e.1 e.2 (GoMap.lookup_of_mem_entries c.cache e he)).1
    · intro hp
      obtain ⟨k, _, hk⟩ := h.list_to_index p hp
      exact List.mem_map.mpr ⟨⟨k, p⟩, GoMap.mem_entries_of_lookup c.cache k p hk, rfl⟩
  rw [← hperm.length_eq, List.length_map]

theorem NewLRUCache_consistent {α : Type} (maxItems expireTime cleanTime : Int) :
    (NewLRUCache maxItems expireTime cleanTime : LRUCache α).Consistent where
  nodup := List.nodup_nil
  index_to_list := by
    intro k p hl
    have : (∅ : GoMap Nat).lookup k = some p := hl
    rw [AList.lookup_empty] at this
    cases this
  list_to_index := by
    intro p hp
    cases hp

theorem LRUCache.Consistent.step_ok {α : Type} {c : LRUCache α} (h : c.Consistent)
    (op : LRUOp α) : (c.step op).Consistent := by
  cases op with
  | Get key now =>
    show ((c.Get key now).2.2).Consistent
    rcases c.Get_cases key now with hm | ⟨p, item, _, _, _, hg⟩
    · rw [hm]; exact h
    · rw [hg]; exact h.touch p
  | Set key value now =>
    show (c.Set key value now).Consistent
    cases hl : c.cache.lookup key with
    | some p =>
      rw [c.Set_hit key value now p hl]
      exact h.refresh p value _
    | none =>
      by_cases hcap : (c.lruList.length : Int) + 1 > c.maxItems
      · obtain ⟨back, kb, _, _, hlk, hs⟩ := LRUCache.Set_miss_evict h key value now hl hcap
        rw [hs]
        exact (h.pushed_ok key value now hl).removed_ok kb back hlk
      · rw [c.Set_miss_keep key value now hl hcap]
        exact h.pushed_ok key value now hl
  | Delete key =>
    show (c.Delete key).Consistent
    cases hl : c.cache.lookup key with
    | some p =>
      rw [c.Delete_hit key p hl]
      exact h.removed_ok key p hl
    | none =>
      rw [c.Delete_miss key hl]
      exact h
  | GC clock => exact (LRUCache.gcPass_spec h clock).1

theorem LRUCache.Consistent.run_ok {α : Type} (ops : List (LRUOp α)) :
    ∀ c : LRUCache α, c.Consistent → (c.run ops).Consistent := by
  induction ops with
  | nil => intro c h; exact h
  | cons op ops ih =>
    intro c h
    exact ih (c.step op) (h.step_ok op)

theorem LRUCache.step_params {α : Type} (c : LRUCache α) (op : LRUOp α) :
    (c.step op).maxItems = c.maxItems ∧ (c.step op).expireTime = c.expireTime := by
  cases op with
  | Get key now =>
    show ((c.Get key now).2.2).maxItems = _ ∧ ((c.Get key now).2.2).expireTime = _
    rcases c.Get_cases key now with hm | ⟨p, item, _, _, _, hg⟩
    · rw [hm]; exact ⟨rfl, rfl⟩
    · rw [hg]; exact ⟨rfl, rfl⟩
  | Set key value now =>
    show (c.Set key value now).maxItems = _ ∧ (c.Set key value now).expireTime = _
    unfold LRUCache.Set
    split
    · exact ⟨rfl, rfl⟩
    · simp only []
      split
      · split <;> exact ⟨rfl, rfl⟩
      · exact ⟨rfl, rfl⟩
  | Delete key =>
    show (c.Delete key).maxItems = _ ∧ (c.Delete key).expireTime = _
    unfold LRUCache.Delete
    split <;> exact ⟨rfl, rfl⟩
  | GC clock =>
    show (c.gcPass clock).maxItems = _ ∧ (c.gcPass clock).expireTime = _
    rw [LRUCache.gcPass_eq_fold]
    exact ⟨(LRUCache.gc_fold_fields clock _ c).2.1, (LRUCache.gc_fold_fields clock _ c).2.2.1⟩

theorem LRUCache.run_params {α : Type} (ops : List (LRUOp α)) :
    ∀ c : LRUCache α, (c.run ops).maxItems = c.maxItems ∧
      (c.run ops).expireTime = c.expireTime := by
  induction ops with
  | nil => intro c; exact ⟨rfl, rfl⟩
  | cons op ops ih =>
    intro c
    show ((c.step op).run ops).maxItems = _ ∧ ((c.step op).run ops).expireTime = _
    rw [(ih (c.step op)).1, (ih (c.step op)).2]
    exact c.step_params op

theorem LRUCache.capacity_step {α : Type} {c : LRUCache α} (h : c.Consistent)
    (hcap : (c.lruList.length : Int) ≤ c.maxItems) (op : LRUOp α) :
    ((c.step op).lruList.length : Int) ≤ c.maxItems := by
  cases op with
  | Get key now =>
    show (((c.Get key now).2.2).lruList.length : Int) ≤ _
    rcases c.Get_cases key now with hm | ⟨p, item, _, _, _, hg⟩
    · rw [hm]; exact hcap
    · rw [hg]
      show ((listMoveToFront c.lruList p).length : Int) ≤ _
      rw [length_listMoveToFront]; exact hcap
  | Set key value now =>
    show ((c.Set key value now).lruList.length : Int) ≤ _
    cases hl : c.cache.lookup key with
    | some p =>
      rw [c.Set_hit key value now p hl]
      show ((listMoveToFront c.lruList p).length : Int) ≤ _
      rw [length_listMoveToFront]; exact hcap
    | none =>
      by_cases hc : (c.lruList.length : Int) + 1 > c.maxItems
      · obtain ⟨back, kb, hback, _, _, hs⟩ := LRUCache.Set_miss_evict h key value now hl hc
        rw [hs]
        have hmem : back ∈ c.elems.length :: c.lruList := List.mem_of_mem_getLast? hback
        show (((c.elems.length :: c.lruList).erase back).length : Int) ≤ _
        rw [List.length_erase_of_mem hmem, List.length_cons]
        omega
      · rw [c.Set_miss_keep key value now hl hc]
        show ((c.elems.length :: c.lruList).length : Int) ≤ _
        rw [List.length_cons]
        push_cast
        omega
  | Delete key =>
    show ((c.Delete key).lruList.length : Int) ≤ _
    cases hl : c.cache.lookup key with
    | some p =>
      rw [c.Delete_hit key p hl]
      show ((c.lruList.erase p).length : Int) ≤ _
      have := (List.erase_sublist p c.lruList).length_le
      omega
    | none => rw [c.Delete_miss key hl]; exact hcap
  | GC clock =>
    show ((c.gcPass clock).lruList.length : Int) ≤ _
    rw [(LRUCache.gcPass_spec h clock).2.2.2.2.1]
    have := List.length_filter_le (fun p => !c.expiredSeen clock p) c.lruList
    omega

theorem LRUCache.invariants_run {α : Type} (ops : List (LRUOp α)) :
    ∀ c : LRUCache α, c.Consistent → (c.lruList.length : Int) ≤ c.maxItems →
      (c.run ops).Consistent ∧ ((c.run ops).lruList.length : Int) ≤ c.maxItems := by
  induction ops with
  | nil => intro c h hcap; exact ⟨h, hcap⟩
  | cons op ops ih =>
    intro c h hcap
    have hstep := LRUCache.capacity_step h hcap op
    have := ih (c.step op) (h.step_ok op) (by rw [(c.step_params op).1]; exact hstep)
    rw [(c.step_params op).1] at this
    exact this

theorem LRUCache.reachable_invariants {α : Type} (maxItems expireTime cleanTime : Int)
    (ops : List (LRUOp α)) (hm : 0 ≤ maxItems) :
    ((NewLRUCache maxItems expireTime cleanTime : LRUCache α).run ops).Consistent ∧
    ((((NewLRUCache maxItems expireTime cleanTime : LRUCache α).run ops).lruList.length : Int)
      ≤ maxItems) :=
  LRUCache.invariants_run ops _ (NewLRUCache_consistent _ _ _) hm

/-- C13 (LRU capacity invariant): for every capacity `maxItems >= 0` and every sequence of
`Set`, `Get`, `Delete` and GC passes applied to a new LRU cache, after each call of the
sequence (every prefix `ops.take n`) the recency list length and the hash index size are
both at most `maxItems`. -/
theorem C13_capacity_invariant {α : Type} (maxItems expireTime cleanTime : Int)
    (ops : List (LRUOp α)) (n : Nat) (hm : 0 ≤ maxItems) :
    ((((NewLRUCache maxItems expireTime cleanTime : LRUCache α).run
        (ops.take n)).lruList.length : Int) ≤ maxItems) ∧
    ((((NewLRUCache maxItems expireTime cleanTime : LRUCache α).run
        (ops.take n)).indexSize : Int) ≤ maxItems) := by
  obtain ⟨hc, hcap⟩ := @LRUCache.reachable_invariants α maxItems expireTime cleanTime
    (ops.take n) hm
  exact ⟨hcap, by rw [hc.indexSize_eq]; exact hcap⟩

/-- Witness for C13: capacity 2, three `Set`s of distinct keys, a `Get` and a GC pass. -/
theorem C13_capacity_invariant_witness :
    ((((NewLRUCache 2 10 10 : LRUCache Nat).run
        ([LRUOp.Set "a" (some 1) 0, LRUOp.Set "b" (some 2) 1, LRUOp.Set "c" (some 3) 2,
          LRUOp.Get "b" 3, LRUOp.GC (fun _ => 4)].take 3)).lruList.length : Int) ≤ 2) ∧
    ((((NewLRUCache 2 10 10 : LRUCache Nat).run
        ([LRUOp.Set "a" (some 1) 0, LRUOp.Set "b" (some 2) 1, LRUOp.Set "c" (some 3) 2,
          LRUOp.Get "b" 3, LRUOp.GC (fun _ => 4)].take 3)).indexSize : Int) ≤ 2) :=
  C13_capacity_invariant 2 10 10
    [LRUOp.Set "a" (some 1) 0, LRUOp.Set "b" (some 2) 1, LRUOp.Set "c" (some 3) 2,
      LRUOp.Get "b" 3, LRUOp.GC (fun _ => 4)] 3 (by decide)

/-- C14 (LRU index/list consistency invariant): after every sequence of `Set`, `Get`,
`Delete` and GC passes applied to a new LRU cache (every prefix `ops.take n`), a key is in
the hash index iff some linked list node carries it, no node is linked twice and no key is
carried by two linked nodes, and the index maps each key `k` to a linked node whose
`CacheItem.key` is `k`. -/
theorem C14_index_list_consistent {α : Type} (maxItems expireTime cleanTime : Int)
    (ops : List (LRUOp α)) (n : Nat) :
    (∀ k, k ∈ ((NewLRUCache maxItems expireTime cleanTime : LRUCache α).run
          (ops.take n)).cache ↔
        ∃ p, p ∈ ((NewLRUCache maxItems expireTime cleanTime : LRUCache α).run
          (ops.take n)).lruList ∧
          ((NewLRUCache maxItems expireTime cleanTime : LRUCache α).run
            (ops.take n)).keyAt p = some k) ∧
    ((NewLRUCache maxItems expireTime cleanTime : LRUCache α).run (ops.take n)).lruList.Nodup ∧
    (∀ p q, p ∈ ((NewLRUCache maxItems expireTime cleanTime : LRUCache α).run
          (ops.take n)).lruList →
        q ∈ ((NewLRUCache maxItems expireTime cleanTime : LRUCache α).run
          (ops.take n)).lruList →
        ((NewLRUCache maxItems expireTime cleanTime : LRUCache α).run (ops.take n)).keyAt p
          = ((NewLRUCache maxItems expireTime cleanTime : LRUCache α).run
              (ops.take n)).keyAt q →
        p = q) ∧
    (∀ k p, ((NewLRUCache maxItems expireTime cleanTime : LRUCache α).run
          (ops.take n)).cache.lookup k = some p →
        p ∈ ((NewLRUCache maxItems expireTime cleanTime : LRUCache α).run
          (ops.take n)).lruList ∧
        ((NewLRUCache maxItems expireTime cleanTime : LRUCache α).run
          (ops.take n)).keyAt p = some k) := by
  have hc := LRUCache.Consistent.run_ok (ops.take n) _
    (@NewLRUCache_consistent α maxItems expireTime cleanTime)
  refine ⟨?_, hc.nodup, ?_, hc.index_to_list⟩
  · intro k
    constructor
    · intro hk
      rw [← AList.lookup_isSome] at hk
      obtain ⟨p, hp⟩ := Option.isSome_iff_exists.mp hk
      exact ⟨p, hc.index_to_list k p hp⟩
    · rintro ⟨p, hp, hkey⟩
      obtain ⟨k1, h1, h2⟩ := hc.list_to_index p hp
      rw [h1] at hkey
      have : k1 = k := Option.some.inj hkey
      subst this
      rw [← AList.lookup_isSome, h2]
      rfl
  · intro p q hp hq hpq
    obtain ⟨k1, h1, h2⟩ := hc.list_to_index p hp
    obtain ⟨k2, h3, h4⟩ := hc.list_to_index q hq
    rw [h1, h3] at hpq
    have : k1 = k2 := Option.some.inj hpq
    subst this
    rw [h2] at h4
    exact Option.some.inj h4

theorem LRUCache.expiredAt_iff {α : Type} (c : LRUCache α) (now : Int) (p : Nat) :
    c.expiredAt now p = true ↔ ∃ item, c.elems[p]? = some item ∧ item.expireAt < now := by
  unfold LRUCache.expiredAt
  rcases hi : c.elems[p]? with _ | item
  · simp
  · simp [CacheItem.isExpired]

theorem LRUCache.expiredSeen_iff {α : Type} (c : LRUCache α) (clock : String → Int)
    (p : Nat) :
    c.expiredSeen clock p = true ↔
      ∃ item, c.elems[p]? = some item ∧ item.expireAt < clock item.key := by
  unfold LRUCache.expiredSeen
  rcases hi : c.elems[p]? with _ | item
  · simp
  · simp [CacheItem.isExpired]

/-- C19, counterexample: `a` (expireAt 10) and `b` (expireAt 11) are stored; a GC pass
visits `a` when the clock reads 10 and `b` when it reads 12 (`isExpired()` reads the
clock for each entry).  It keeps `a` and removes `b`; no single clock time `now` has
`expireAt` of `b` before it and `expireAt` of `a` not before it, so the pass removes
"exactly the entries whose expireAt is before now" for no `now`. -/
theorem C19_gc_pass_with_advancing_clock :
    ((NewLRUCache 10 10 10 : LRUCache Nat).run
        [LRUOp.Set "a" (some 1) 0, LRUOp.Set "b" (some 2) 1]).elems
      = [{ key := "a", value := some 1, expireAt := 10 },
         { key := "b", value := some 2, expireAt := 11 }] ∧
    (((NewLRUCache 10 10 10 : LRUCache Nat).run
        [LRUOp.Set "a" (some 1) 0, LRUOp.Set "b" (some 2) 1]).gcPass
        (fun k => if k = "a" then 10 else 12)).cache.lookup "a" = some 0 ∧
    (((NewLRUCache 10 10 10 : LRUCache Nat).run
        [LRUOp.Set "a" (some 1) 0, LRUOp.Set "b" (some 2) 1]).gcPass
        (fun k => if k = "a" then 10 else 12)).cache.lookup "b" = none ∧
    ¬ ∃ now : Int,
      ((((NewLRUCache 10 10 10 : LRUCache Nat).run
          [LRUOp.Set "a" (some 1) 0, LRUOp.Set "b" (some 2) 1]).gcPass
          (fun k => if k = "a" then 10 else 12)).cache.lookup "a" = none ↔ (10 : Int) < now) ∧
      ((((NewLRUCache 10 10 10 : LRUCache Nat).run
          [LRUOp.Set "a" (some 1) 0, LRUOp.Set "b" (some 2) 1]).gcPass
          (fun k => if k = "a" then 10 else 12)).cache.lookup "b" = none ↔ (11 : Int) < now) := by
  have ha : (((NewLRUCache 10 10 10 : LRUCache Nat).run
        [LRUOp.Set "a" (some 1) 0, LRUOp.Set "b" (some 2) 1]).gcPass
        (fun k => if k = "a" then 10 else 12)).cache.lookup "a" = some 0 := by decide
  have hb : (((NewLRUCache 10 10 10 : LRUCache Nat).run
        [LRUOp.Set "a" (some 1) 0, LRUOp.Set "b" (some 2) 1]).gcPass
        (fun k => if k = "a" then 10 else 12)).cache.lookup "b" = none := by decide
  refine ⟨by decide, ha, hb, ?_⟩
  rintro ⟨now, h1, h2⟩
  rw [ha] at h1
  rw [hb] at h2
  have hlt : (11 : Int) < now := h2.mp rfl
  have hnot : ¬ (10 : Int) < now := fun h => by
    have := h1.mpr h
    cases this
  omega

/-- C19 as amended (LRU GC pass removes exactly the entries it sees expired): for every
state reached from a new LRU cache and every pass, in which the clock reads `clock k`
when the entry under `k` is visited, one GC pass keeps in the hash index exactly the keys
whose item is not expired at its own reading (`expireAt` not before `clock k`), with the
same node, keeps in the recency list exactly the nodes of those items, in their previous
relative order, and leaves every stored item (value and expiry time) as it was.  When the
clock reads `now` throughout the pass, the entries removed are exactly those whose
`expireAt` is before `now`. -/
theorem C19_gc_removes_exactly_expired {α : Type} (maxItems expireTime cleanTime : Int)
    (ops : List (LRUOp α)) (clock : String → Int) (now : Int) (k : String) (p : Nat) :
    (((NewLRUCache maxItems expireTime cleanTime : LRUCache α).run ops).gcPass
        clock).cache.lookup k
      = (((NewLRUCache maxItems expireTime cleanTime : LRUCache α).run ops).cache.lookup
          k).filter
          (fun q => !((NewLRUCache maxItems expireTime cleanTime : LRUCache α).run
            ops).expiredSeen clock q) ∧
    (((NewLRUCache maxItems expireTime cleanTime : LRUCache α).run ops).gcPass clock).lruList
      = ((NewLRUCache maxItems expireTime cleanTime : LRUCache α).run ops).lruList.filter
          (fun q => !((NewLRUCache maxItems expireTime cleanTime : LRUCache α).run
            ops).expiredSeen clock q) ∧
    (((NewLRUCache maxItems expireTime cleanTime : LRUCache α).run ops).gcPass clock).elems
      = ((NewLRUCache maxItems expireTime cleanTime : LRUCache α).run ops).elems ∧
    (((NewLRUCache maxItems expireTime cleanTime : LRUCache α).run ops).expiredSeen clock p
        = true ↔
      ∃ item, ((NewLRUCache maxItems expireTime cleanTime : LRUCache α).run ops).elems[p]?
          = some item ∧ item.expireAt < clock item.key) ∧
    (((NewLRUCache maxItems expireTime cleanTime : LRUCache α).run ops).gcPass
        (fun _ => now)).cache.lookup k
      = (((NewLRUCache maxItems expireTime cleanTime : LRUCache α).run ops).cache.lookup
          k).filter
          (fun q => !((NewLRUCache maxItems expireTime cleanTime : LRUCache α).run
            ops).expiredAt now q) ∧
    (((NewLRUCache maxItems expireTime cleanTime : LRUCache α).run ops).gcPass
        (fun _ => now)).lruList
      = ((NewLRUCache maxItems expireTime cleanTime : LRUCache α).run ops).lruList.filter
          (fun q => !((NewLRUCache maxItems expireTime cleanTime : LRUCache α).run
            ops).expiredAt now q) ∧
    (((NewLRUCache maxItems expireTime cleanTime : LRUCache α).run ops).gcPass
        (fun _ => now)).elems
      = ((NewLRUCache maxItems expireTime cleanTime : LRUCache α).run ops).elems ∧
    (((NewLRUCache maxItems expireTime cleanTime : LRUCache α).run ops).expiredAt now p = true ↔
      ∃ item, ((NewLRUCache maxItems expireTime cleanTime : LRUCache α).run ops).elems[p]?
          = some item ∧ item.expireAt < now) := by
  have hc := LRUCache.Consistent.run_ok ops _
    (@NewLRUCache_consistent α maxItems expireTime cleanTime)
  obtain ⟨_, h2, _, _, h5, h6⟩ := LRUCache.gcPass_spec hc clock
  obtain ⟨_, g2, _, _, g5, g6⟩ := LRUCache.gcPass_spec hc (fun _ => now)
  exact ⟨h6 k, h5, h2, LRUCache.expiredSeen_iff _ clock p, g6 k, g5, g2,
    LRUCache.expiredAt_iff _ now p⟩

theorem listMoveToFront_of_mem (l : List Nat) (p : Nat) (h : p ∈ l) :
    listMoveToFront l p = p :: l.erase p := by
  unfold listMoveToFront
  rw [if_pos h]

/-- C20 (LRU access promotes to front): in every state reached from a new LRU cache, for a
key `k` that the index maps to node `p` holding `item`: a `Get(k)` at a time when `item` is
not expired returns `(item.value, true)`, and both that `Get` and a `Set(k, v)` leave the
recency list as `p` followed by the previous list without `p` (so `p` is the front and the
other nodes keep their relative order) and leave the hash index, hence the set of keys,
unchanged. -/
theorem C20_access_promotes_to_front {α : Type} (maxItems expireTime cleanTime : Int)
    (ops : List (LRUOp α)) (k : String) (v : Option α) (now snow : Int) (p : Nat)
    (item : CacheItem α)
    (hl : ((NewLRUCache maxItems expireTime cleanTime : LRUCache α).run ops).cache.lookup k
      = some p)
    (hi : ((NewLRUCache maxItems expireTime cleanTime : LRUCache α).run ops).elems[p]?
      = some item)
    (hx : item.isExpired now = false) :
    (((NewLRUCache maxItems expireTime cleanTime : LRUCache α).run ops).Get k now).1
      = item.value ∧
    (((NewLRUCache maxItems expireTime cleanTime : LRUCache α).run ops).Get k now).2.1 = true ∧
    (((NewLRUCache maxItems expireTime cleanTime : LRUCache α).run ops).Get k now).2.2.lruList
      = p :: ((NewLRUCache maxItems expireTime cleanTime : LRUCache α).run ops).lruList.erase p ∧
    (((NewLRUCache maxItems expireTime cleanTime : LRUCache α).run ops).Get k now).2.2.cache
      = ((NewLRUCache maxItems expireTime cleanTime : LRUCache α).run ops).cache ∧
    (((NewLRUCache maxItems expireTime cleanTime : LRUCache α).run ops).Set k v snow).lruList
      = p :: ((NewLRUCache maxItems expireTime cleanTime : LRUCache α).run ops).lruList.erase p ∧
    (((NewLRUCache maxItems expireTime cleanTime : LRUCache α).run ops).Set k v snow).cache
      = ((NewLRUCache maxItems expireTime cleanTime : LRUCache α).run ops).cache ∧
    (((NewLRUCache maxItems expireTime cleanTime : LRUCache α).run ops).lruList.erase p
      = ((NewLRUCache maxItems expireTime cleanTime : LRUCache α).run ops).lruList.filter
          (fun q => q != p)) := by
  have hc := LRUCache.Consistent.run_ok ops _
    (@NewLRUCache_consistent α maxItems expireTime cleanTime)
  have hp := (hc.index_to_list k p hl).1
  rw [LRUCache.Get_hit _ k now p item hl hi hx, LRUCache.Set_hit _ k v snow p hl]
  exact ⟨rfl, rfl, listMoveToFront_of_mem _ p hp, rfl, listMoveToFront_of_mem _ p hp, rfl,
    hc.nodup.erase_eq_filter p⟩

/-- Witness for C20: keys `a` then `b` are set, so the list is `b, a`; `Get("a")` at time 5
moves node 0 to the front. -/
theorem C20_access_promotes_to_front_witness :
    (((NewLRUCache 2 10 10 : LRUCache Nat).run
        [LRUOp.Set "a" (some 1) 0, LRUOp.Set "b" (some 2) 1]).Get "a" 5).2.2.lruList
      = [0, 1] :=
  (C20_access_promotes_to_front 2 10 10
    [LRUOp.Set "a" (some 1) 0, LRUOp.Set "b" (some 2) 1] "a" (some 7) 5 6 0
    { key := "a", value := some 1, expireAt := 10 } (by decide) (by decide)
    (by decide)).2.2.1.trans (by decide)

theorem LRUCache.pushed_lookup {α : Type} (c : LRUCache α) (k k1 : String) (v : Option α)
    (now : Int) :
    (c.pushed k v now).cache.lookup k1
      = if k1 = k then some c.elems.length else c.cache.lookup k1 := by
  show (c.cache.insert k c.elems.length).lookup k1 = _
  by_cases h : k1 = k
  · rw [if_pos h, h, AList.lookup_insert]
  · rw [if_neg h, AList.lookup_insert_ne h]

theorem LRUCache.removed_lookup {α : Type} (c : LRUCache α) (kb k1 : String) (back : Nat) :
    (c.removed kb back).cache.lookup k1
      = if k1 = kb then none else c.cache.lookup k1 := by
  show (c.cache.erase kb).lookup k1 = _
  by_cases h : k1 = kb
  · rw [if_pos h, h, AList.lookup_erase]
  · rw [if_neg h, AList.lookup_erase_ne h]

theorem LRUCache.pushed_keyAt_old {α : Type} (c : LRUCache α) (k : String) (v : Option α)
    (now : Int) (q : Nat) (hq : q < c.elems.length) :
    (c.pushed k v now).keyAt q = c.keyAt q := by
  unfold LRUCache.keyAt
  show Option.map _ ((c.elems ++ [_])[q]?) = _
  rw [List.getElem?_append_left hq]

theorem LRUCache.Consistent.mem_lt {α : Type} {c : LRUCache α} (h : c.Consistent)
    (q : Nat) (hq : q ∈ c.lruList) : q < c.elems.length := by
  obtain ⟨k, h1, _⟩ := h.list_to_index q hq
  exact c.keyAt_lt q k h1

theorem LRUCache.Set_miss_evict_old {α : Type} {c : LRUCache α} (h : c.Consistent)
    (k : String) (v : Option α) (now : Int) (hl : c.cache.lookup k = none)
    (hcap : (c.lruList.length : Int) + 1 > c.maxItems) (hne : c.lruList ≠ []) :
    ∃ back kb, c.lruList.getLast? = some back ∧ back ∈ c.lruList ∧
      c.cache.lookup kb = some back ∧ c.keyAt back = some kb ∧ kb ≠ k ∧
      c.Set k v now = (c.pushed k v now).removed kb back := by
  obtain ⟨back, kb, hback, hkb, hlk, hs⟩ := LRUCache.Set_miss_evict h k v now hl hcap
  have hb : c.lruList.getLast? = some back := by
    have : (c.elems.length :: c.lruList).getLast? = some back := hback
    cases hlist : c.lruList with
    | nil => exact absurd hlist hne
    | cons a as =>
      rw [hlist, List.getLast?_cons_cons] at this
      exact this
  have hmem : back ∈ c.lruList := List.mem_of_mem_getLast? hb
  have hlt := h.mem_lt back hmem
  rw [c.pushed_keyAt_old k v now back hlt] at hkb
  have hne2 : kb ≠ k := by
    intro heq
    rw [c.pushed_lookup, if_pos heq] at hlk
    have : c.elems.length = back := Option.some.inj hlk
    omega
  rw [c.pushed_lookup, if_neg hne2] at hlk
  exact ⟨back, kb, hb, hmem, hlk, hkb, hne2, hs⟩

theorem LRUCache.Set_stores {α : Type} {c : LRUCache α} (h : c.Consistent)
    (k : String) (v : Option α) (now : Int) (hm : 1 ≤ c.maxItems) :
    ∃ p, (c.Set k v now).cache.lookup k = some p ∧
      (c.Set k v now).elems[p]?
        = some { key := k, value := v, expireAt := now + c.expireTime } := by
  cases hl : c.cache.lookup k with
  | some p =>
    refine ⟨p, ?_, ?_⟩
    · rw [c.Set_hit k v now p hl]; exact hl
    · rw [c.Set_hit k v now p hl]
      obtain ⟨item, hi, hk⟩ := c.keyAt_item p k (h.index_to_list k p hl).2
      show (List.modify _ p c.elems)[p]? = _
      rw [List.getElem?_modify, hi]
      simp [hk]
  | none =>
    have hnew : (c.pushed k v now).elems[c.elems.length]?
        = some { key := k, value := v, expireAt := now + c.expireTime } :=
      List.getElem?_concat_length _ _
    by_cases hcap : (c.lruList.length : Int) + 1 > c.maxItems
    · have hne : c.lruList ≠ [] := by
        intro he
        rw [he] at hcap
        simp at hcap
        omega
      obtain ⟨back, kb, _, _, _, _, hne2, hs⟩ :=
        LRUCache.Set_miss_evict_old h k v now hl hcap hne
      refine ⟨c.elems.length, ?_, ?_⟩
      · rw [hs, LRUCache.removed_lookup, if_neg (fun e => hne2 e.symm), c.pushed_lookup,
          if_pos rfl]
      · rw [hs]; exact hnew
    · refine ⟨c.elems.length, ?_, ?_⟩
      · rw [c.Set_miss_keep k v now hl hcap, c.pushed_lookup, if_pos rfl]
      · rw [c.Set_miss_keep k v now hl hcap]; exact hnew

/-- C18 (LRU Set then Get within the TTL): in every state reached from a new LRU cache
with `maxItems >= 1`, after `Set(k, v)` at clock time `t` (new or already present key),
`Get(k)` at clock time `now` returns `(v, true)` when `now <= t + expireTime` and returns
`(nil, false)` when `now > t + expireTime`; when `k` was already present, mapped to node
`p`, the `Set` stores value `v` and expiry `t + expireTime` in that node, leaves the hash
index as it was (nothing is evicted) and leaves the number of entries unchanged. -/
theorem C18_set_then_get_within_ttl {α : Type} (maxItems expireTime cleanTime : Int)
    (ops : List (LRUOp α)) (k : String) (v : Option α) (t now : Int) (hm : 1 ≤ maxItems) :
    (now ≤ t + expireTime →
      ((((NewLRUCache maxItems expireTime cleanTime : LRUCache α).run ops).Set k v t).Get k
          now).1 = v ∧
      ((((NewLRUCache maxItems expireTime cleanTime : LRUCache α).run ops).Set k v t).Get k
          now).2.1 = true) ∧
    (t + expireTime < now →
      (((NewLRUCache maxItems expireTime cleanTime : LRUCache α).run ops).Set k v t).Get k now
        = (none, false,
            ((NewLRUCache maxItems expireTime cleanTime : LRUCache α).run ops).Set k v t)) ∧
    (∀ p, ((NewLRUCache maxItems expireTime cleanTime : LRUCache α).run ops).cache.lookup k
        = some p →
      (((NewLRUCache maxItems expireTime cleanTime : LRUCache α).run ops).Set k v t).elems[p]?
        = some { key := k, value := v, expireAt := t + expireTime } ∧
      (((NewLRUCache maxItems expireTime cleanTime : LRUCache α).run ops).Set k v t).cache
        = ((NewLRUCache maxItems expireTime cleanTime : LRUCache α).run ops).cache ∧
      (((NewLRUCache maxItems expireTime cleanTime : LRUCache α).run ops).Set k v t).indexSize
        = ((NewLRUCache maxItems expireTime cleanTime : LRUCache α).run ops).indexSize ∧
      (((NewLRUCache maxItems expireTime cleanTime : LRUCache α).run
          ops).Set k v t).lruList.length
        = ((NewLRUCache maxItems expireTime cleanTime : LRUCache α).run ops).lruList.length) := by
  have hc := LRUCache.Consistent.run_ok ops _
    (@NewLRUCache_consistent α maxItems expireTime cleanTime)
  have hpar := LRUCache.run_params ops (NewLRUCache maxItems expireTime cleanTime : LRUCache α)
  have hmax : ((NewLRUCache maxItems expireTime cleanTime : LRUCache α).run ops).maxItems
      = maxItems := hpar.1
  have hexp : ((NewLRUCache maxItems expireTime cleanTime : LRUCache α).run ops).expireTime
      = expireTime := hpar.2
  obtain ⟨p, hp1, hp2⟩ := LRUCache.Set_stores hc k v t (by rw [hmax]; exact hm)
  rw [hexp] at hp2
  refine ⟨?_, ?_, ?_⟩
  · intro hnow
    have hx : CacheItem.isExpired
        ({ key := k, value := v, expireAt := t + expireTime } : CacheItem α) now = false := by
      simp only [CacheItem.isExpired, decide_eq_false_iff_not]
      omega
    rw [LRUCache.Get_hit _ k now p _ hp1 hp2 hx]
    exact ⟨rfl, rfl⟩
  · intro hnow
    apply LRUCache.Get_miss
    right
    refine ⟨p, _, hp1, hp2, ?_⟩
    simp only [CacheItem.isExpired, decide_eq_true_eq]
    exact hnow
  · intro q hq
    have hs := LRUCache.Set_hit _ k v t q hq
    have hq1 : (((NewLRUCache maxItems expireTime cleanTime : LRUCache α).run ops).Set k v
        t).cache.lookup k = some q := by rw [hs]; exact hq
    have hpq : p = q := by rw [hp1] at hq1; exact Option.some.inj hq1
    subst hpq
    refine ⟨hp2, ?_, ?_, ?_⟩
    · rw [hs]
    · rw [hs]; rfl
    · rw [hs]
      exact length_listMoveToFront _ _

/-- Witness for C18: capacity 10, TTL 10; `Set("key", 5)` at time 0 on a cache already
holding `"key"`, then `Get("key")` at time 10 and at time 11. -/
theorem C18_set_then_get_within_ttl_witness :
    ((((NewLRUCache 10 10 10 : LRUCache Nat).run [LRUOp.Set "key" (some 1) 0]).Set "key"
        (some 5) 0).Get "key" 10).1 = some 5 ∧
    ((((NewLRUCache 10 10 10 : LRUCache Nat).run [LRUOp.Set "key" (some 1) 0]).Set "key"
        (some 5) 0).Get "key" 11).2.1 = false :=
  ⟨((C18_set_then_get_within_ttl 10 10 10 [LRUOp.Set "key" (some 1) 0] "key" (some 5) 0 10
      (by decide)).1 (by decide)).1,
   congrArg (fun r => r.2.1)
     ((C18_set_then_get_within_ttl 10 10 10 [LRUOp.Set "key" (some 1) 0] "key" (some 5) 0 11
      (by decide)).2.1 (by decide))⟩

/-! ## The LRU cache: recency order -/

theorem LRUCache.Recency.sub {α : Type} {c : LRUCache α} {log : List String}
    (h : c.Recency log) (c1 : LRUCache α) (hs : c1.lruList.Sublist c.lruList)
    (hk : ∀ q, q ∈ c1.lruList → c1.keyAt q = c.keyAt q) : c1.Recency log := by
  unfold LRUCache.Recency at h ⊢
  refine List.Pairwise.imp_of_mem ?_ (h.sublist hs)
  intro a b ha hb hab kp kq h1 h2
  rw [hk a ha] at h1
  rw [hk b hb] at h2
  exact hab kp kq h1 h2

theorem LRUCache.Recency.front {α : Type} {c : LRUCache α} {log : List String}
    (h : c.Recency log) (c1 : LRUCache α) (k : String) (p : Nat) (rest : List Nat)
    (hl : c1.lruList = p :: rest) (hs : rest.Sublist c.lruList)
    (hp : c1.keyAt p = some k)
    (hk : ∀ q, q ∈ rest → c1.keyAt q = c.keyAt q)
    (hne : ∀ q, q ∈ rest → c.keyAt q ≠ some k) : c1.Recency (k :: log) := by
  unfold LRUCache.Recency at h ⊢
  rw [hl, List.pairwise_cons]
  constructor
  · intro q hq kp kq h1 h2
    rw [hp] at h1
    have hkp : kp = k := (Option.some.inj h1).symm
    subst hkp
    rw [hk q hq] at h2
    have hkq : kp ≠ kq := by
      intro heq
      rw [← heq] at h2
      exact hne q hq h2
    rw [List.indexOf_cons_self, List.indexOf_cons_ne _ hkq]
    exact Nat.succ_pos _
  · refine List.Pairwise.imp_of_mem ?_ (h.sublist hs)
    intro a b ha hb hab kp kq h1 h2
    rw [hk a ha] at h1
    rw [hk b hb] at h2
    have hkp : k ≠ kp := fun heq => hne a ha (heq ▸ h1)
    have hkq : k ≠ kq := fun heq => hne b hb (heq ▸ h2)
    rw [List.indexOf_cons_ne _ hkp, List.indexOf_cons_ne _ hkq]
    exact Nat.succ_lt_succ (hab kp kq h1 h2)

theorem LRUCache.Consistent.other_key {α : Type} {c : LRUCache α} (h : c.Consistent)
    (k : String) (p q : Nat) (hl : c.cache.lookup k = some p) (hq : q ∈ c.lruList)
    (hne : q ≠ p) : c.keyAt q ≠ some k := by
  intro hk
  obtain ⟨k1, h1, h2⟩ := h.list_to_index q hq
  rw [hk] at h1
  have : k = k1 := Option.some.inj h1
  subst this
  rw [hl] at h2
  exact hne (Option.some.inj h2).symm

theorem LRUCache.Consistent.absent_key {α : Type} {c : LRUCache α} (h : c.Consistent)
    (k : String) (q : Nat) (hl : c.cache.lookup k = none) (hq : q ∈ c.lruList) :
    c.keyAt q ≠ some k := by
  intro hk
  obtain ⟨k1, h1, h2⟩ := h.list_to_index q hq
  rw [hk] at h1
  have : k = k1 := Option.some.inj h1
  subst this
  rw [hl] at h2
  cases h2

theorem LRUCache.Recency.touch_rec {α : Type} {c : LRUCache α} {log : List String}
    (h : c.Recency log) (hc : c.Consistent) (k : String) (p : Nat)
    (hl : c.cache.lookup k = some p) (c1 : LRUCache α)
    (hlist : c1.lruList = listMoveToFront c.lruList p)
    (hkey : ∀ q, c1.keyAt q = c.keyAt q) : c1.Recency (k :: log) := by
  have hp := hc.index_to_list k p hl
  rw [listMoveToFront_of_mem _ p hp.1] at hlist
  refine h.front c1 k p (c.lruList.erase p) hlist (List.erase_sublist p c.lruList)
    ((hkey p).trans hp.2) (fun q _ => hkey q) ?_
  intro q hq
  have hm := (hc.nodup.mem_erase_iff).mp hq
  exact hc.other_key k p q hl hm.2 hm.1

theorem LRUCache.Recency.pushed_rec {α : Type} {c : LRUCache α} {log : List String}
    (h : c.Recency log) (hc : c.Consistent) (k : String) (v : Option α) (now : Int)
    (hl : c.cache.lookup k = none) : (c.pushed k v now).Recency (k :: log) := by
  refine h.front (c.pushed k v now) k c.elems.length c.lruList rfl (List.Sublist.refl _)
    ?_ (fun q hq => c.pushed_keyAt_old k v now q (hc.mem_lt q hq))
    (fun q hq => hc.absent_key k q hl hq)
  unfold LRUCache.keyAt
  show Option.map _ ((c.elems ++ [_])[c.elems.length]?) = _
  rw [List.getElem?_concat_length]
  rfl

theorem LRUCache.Recency.removed_rec {α : Type} {c : LRUCache α} {log : List String}
    (h : c.Recency log) (k : String) (p : Nat) : (c.removed k p).Recency log :=
  h.sub (c.removed k p) (List.erase_sublist p c.lruList) (fun _ _ => rfl)

theorem LRUCache.Recency.step_rec {α : Type} {c : LRUCache α} {log : List String}
    (h : c.Recency log) (hc : c.Consistent) (op : LRUOp α) :
    (c.step op).Recency ((c.accessed op).toList ++ log) := by
  cases op with
  | Get key now =>
    show ((c.Get key now).2.2).Recency
      ((if (c.Get key now).2.1 then some key else none).toList ++ log)
    rcases c.Get_cases key now with hm | ⟨p, item, hl, _, _, hg⟩
    · rw [hm]; exact h
    · rw [hg]
      exact h.touch_rec hc key p hl _ rfl (fun _ => rfl)
  | Set key value now =>
    show (c.Set key value now).Recency (key :: log)
    cases hl : c.cache.lookup key with
    | some p =>
      rw [c.Set_hit key value now p hl]
      exact h.touch_rec hc key p hl _ rfl (fun q => keyAt_modify c _ p q value _)
    | none =>
      by_cases hcap : (c.lruList.length : Int) + 1 > c.maxItems
      · obtain ⟨back, kb, _, _, _, hs⟩ := LRUCache.Set_miss_evict hc key value now hl hcap
        rw [hs]
        exact (h.pushed_rec hc key value now hl).removed_rec kb back
      · rw [c.Set_miss_keep key value now hl hcap]
        exact h.pushed_rec hc key value now hl
  | Delete key =>
    show (c.Delete key).Recency log
    cases hl : c.cache.lookup key with
    | some p => rw [c.Delete_hit key p hl]; exact h.removed_rec key p
    | none => rw [c.Delete_miss key hl]; exact h
  | GC clock =>
    show (c.gcPass clock).Recency log
    obtain ⟨_, h2, _, _, h5, _⟩ := LRUCache.gcPass_spec hc clock
    refine h.sub _ (by rw [h5]; exact List.filter_sublist _) ?_
    intro q _
    unfold LRUCache.keyAt
    rw [h2]

theorem LRUCache.runLog_spec {α : Type} (ops : List (LRUOp α)) :
    ∀ (c : LRUCache α) (log : List String), c.Consistent → c.Recency log →
      (c.runLog log ops).1 = c.run ops ∧ (c.runLog log ops).1.Consistent ∧
      (c.runLog log ops).1.Recency (c.runLog log ops).2 := by
  induction ops with
  | nil => intro c log hc hr; exact ⟨rfl, hc, hr⟩
  | cons op ops ih =>
    intro c log hc hr
    exact ih (c.step op) _ (hc.step_ok op) (hr.step_rec hc op)

theorem NewLRUCache_recency {α : Type} (maxItems expireTime cleanTime : Int) :
    (NewLRUCache maxItems expireTime cleanTime : LRUCache α).Recency [] := by
  unfold LRUCache.Recency
  exact List.Pairwise.nil

theorem pairwise_last {R : Nat → Nat → Prop} (l : List Nat) (back p : Nat)
    (h : l.Pairwise R) (hb : l.getLast? = some back) (hp : p ∈ l) (hne : p ≠ back) :
    R p back := by
  obtain ⟨ys, hys⟩ := List.getLast?_eq_some_iff.mp hb
  rw [hys] at h hp
  rw [List.pairwise_append] at h
  rcases List.mem_append.mp hp with h1 | h1
  · exact h.2.2 p h1 back (List.mem_singleton_self _)
  · exact absurd (List.mem_singleton.mp h1) hne

/-- C15 (LRU eviction victim): let `c` be the state, and `log` the accessed keys (every
`Set`, every `Get` that hit; most recent first), after a sequence of calls on a new LRU
cache with `maxItems >= 1`, and let `k` be a key not in the index.  If `c` holds exactly
`maxItems` entries, `Set(k, v)` removes exactly one entry, the key `kv` of the back node
`pv`: every other key of the index was accessed more recently than `kv`; afterwards `kv`
is not in the index and `pv` is not in the list, every other old key keeps its node, `k`
is indexed at the new front node, and the list is the new node followed by the old list
without `pv`.  If `c` holds fewer than `maxItems` entries nothing is removed: the list is
the new node followed by the old list and every old key keeps its node. -/
theorem C15_eviction_victim {α : Type} (maxItems expireTime cleanTime : Int)
    (ops : List (LRUOp α)) (c : LRUCache α) (log : List String) (k : String)
    (v : Option α) (now : Int) (hm : 1 ≤ maxItems)
    (hrun : (NewLRUCache maxItems expireTime cleanTime : LRUCache α).runLog [] ops = (c, log))
    (hk : c.cache.lookup k = none) :
    ((c.lruList.length : Int) = maxItems →
      ∃ kv pv, c.cache.lookup kv = some pv ∧ c.lruList.getLast? = some pv ∧
        (∀ k1, k1 ∈ c.cache → k1 ≠ kv → log.indexOf k1 < log.indexOf kv) ∧
        (c.Set k v now).cache.lookup kv = none ∧
        pv ∉ (c.Set k v now).lruList ∧
        (∀ k1, k1 ≠ kv → k1 ≠ k → (c.Set k v now).cache.lookup k1 = c.cache.lookup k1) ∧
        (c.Set k v now).cache.lookup k = some c.elems.length ∧
        (c.Set k v now).lruList = c.elems.length :: c.lruList.erase pv ∧
        (c.Set k v now).indexSize = c.indexSize) ∧
    ((c.lruList.length : Int) < maxItems →
      (c.Set k v now).lruList = c.elems.length :: c.lruList ∧
      (∀ k1, k1 ≠ k → (c.Set k v now).cache.lookup k1 = c.cache.lookup k1) ∧
      (c.Set k v now).cache.lookup k = some c.elems.length ∧
      (c.Set k v now).indexSize = c.indexSize + 1) := by
  obtain ⟨hrun1, hc0, hr0⟩ := LRUCache.runLog_spec ops
    (NewLRUCache maxItems expireTime cleanTime : LRUCache α) []
    (NewLRUCache_consistent _ _ _) (NewLRUCache_recency _ _ _)
  rw [hrun] at hrun1 hc0 hr0
  have hc : c.Consistent := hc0
  have hr : c.Recency log := hr0
  have hc1 : c = (NewLRUCache maxItems expireTime cleanTime : LRUCache α).run ops := hrun1
  have hmax : c.maxItems = maxItems := by
    rw [hc1]
    exact (LRUCache.run_params ops _).1
  have hcs : (c.Set k v now).Consistent := hc.step_ok (LRUOp.Set k v now)
  constructor
  · intro hfull
    have hcap : (c.lruList.length : Int) + 1 > c.maxItems := by rw [hmax]; omega
    have hne : c.lruList ≠ [] := by
      intro he
      rw [he] at hfull
      simp at hfull
      omega
    obtain ⟨back, kb, hb, hmem, hlk, hkey, hne2, hs⟩ :=
      LRUCache.Set_miss_evict_old hc k v now hk hcap hne
    have hlen : back ≠ c.elems.length := by
      have := hc.mem_lt back hmem
      omega
    have hlist : (c.Set k v now).lruList = c.elems.length :: c.lruList.erase back := by
      rw [hs]
      show (c.elems.length :: c.lruList).erase back = _
      rw [List.erase_cons_tail (by simpa using hlen.symm)]
    refine ⟨kb, back, hlk, hb, ?_, ?_, ?_, ?_, ?_, hlist, ?_⟩
    · intro k1 hk1 hne1
      rw [← AList.lookup_isSome] at hk1
      obtain ⟨p1, hp1⟩ := Option.isSome_iff_exists.mp hk1
      obtain ⟨hp1m, hp1k⟩ := hc.index_to_list k1 p1 hp1
      have hpne : p1 ≠ back := by
        intro heq
        rw [heq, hkey] at hp1k
        exact hne1 (Option.some.inj hp1k).symm
      exact pairwise_last c.lruList back p1 hr hb hp1m hpne k1 kb hp1k hkey
    · rw [hs, LRUCache.removed_lookup, if_pos rfl]
    · rw [hlist]
      intro hm1
      rcases List.mem_cons.mp hm1 with h1 | h1
      · exact hlen h1
      · exact ((hc.nodup.mem_erase_iff).mp h1).1 rfl
    · intro k1 h1 h2
      rw [hs, LRUCache.removed_lookup, if_neg h1, c.pushed_lookup, if_neg h2]
    · rw [hs, LRUCache.removed_lookup, if_neg (fun e => hne2 e.symm), c.pushed_lookup,
        if_pos rfl]
    · rw [hcs.indexSize_eq, hc.indexSize_eq, hlist, List.length_cons,
        List.length_erase_of_mem hmem]
      have := List.length_pos_of_mem hmem
      omega
  · intro hless
    have hcap : ¬ ((c.lruList.length : Int) + 1 > c.maxItems) := by rw [hmax]; omega
    have hs := c.Set_miss_keep k v now hk hcap
    refine ⟨by rw [hs]; rfl, ?_, ?_, ?_⟩
    · intro k1 h1
      rw [hs, c.pushed_lookup, if_neg h1]
    · rw [hs, c.pushed_lookup, if_pos rfl]
    · rw [hcs.indexSize_eq, hc.indexSize_eq, hs]
      rfl

/-- Witness for C15: capacity 2; `a` and `b` are set, then `a` is read, so `b` is the least
recently accessed; `Set("c")` evicts `b` (node 1). -/
theorem C15_eviction_victim_witness :
    ∃ kv pv,
      ((NewLRUCache 2 10 10 : LRUCache Nat).runLog []
        [LRUOp.Set "a" (some 1) 0, LRUOp.Set "b" (some 2) 1,
          LRUOp.Get "a" 2]).1.cache.lookup kv = some pv ∧
      (((NewLRUCache 2 10 10 : LRUCache Nat).runLog []
        [LRUOp.Set "a" (some 1) 0, LRUOp.Set "b" (some 2) 1,
          LRUOp.Get "a" 2]).1.Set "c" (some 3) 3).cache.lookup kv = none :=
  have h := (C15_eviction_victim 2 10 10
    [LRUOp.Set "a" (some 1) 0, LRUOp.Set "b" (some 2) 1, LRUOp.Get "a" 2]
    ((NewLRUCache 2 10 10 : LRUCache Nat).runLog []
      [LRUOp.Set "a" (some 1) 0, LRUOp.Set "b" (some 2) 1, LRUOp.Get "a" 2]).1
    ((NewLRUCache 2 10 10 : LRUCache Nat).runLog []
      [LRUOp.Set "a" (some 1) 0, LRUOp.Set "b" (some 2) 1, LRUOp.Get "a" 2]).2
    "c" (some 3) 3 (by decide) rfl (by decide)).1 (by decide)
  match h with
  | ⟨kv, pv, h1, _, _, h4, _⟩ => ⟨kv, pv, h1, h4⟩

/-! ## The LRU cache: inserting a run of new keys -/

theorem LRUCache.Set_miss_take {α : Type} {c : LRUCache α} (h : c.Consistent)
    (hcap : (c.lruList.length : Int) ≤ c.maxItems)
    (k : String) (v : Option α) (now : Int) (hl : c.cache.lookup k = none) :
    (c.Set k v now).lruList = (c.elems.length :: c.lruList).take c.maxItems.toNat ∧
    (c.Set k v now).elems
      = c.elems ++ [{ key := k, value := v, expireAt := now + c.expireTime }] ∧
    (∀ k1, k1 ≠ k → c.cache.lookup k1 = none → (c.Set k v now).cache.lookup k1 = none) := by
  by_cases hc : (c.lruList.length : Int) + 1 > c.maxItems
  · obtain ⟨back, kb, hback, _, _, hs⟩ := LRUCache.Set_miss_evict h k v now hl hc
    have hnd : (c.elems.length :: c.lruList).Nodup := (h.pushed_ok k v now hl).nodup
    have hback1 : (c.elems.length :: c.lruList).getLast? = some back := hback
    obtain ⟨ys, hys⟩ := List.getLast?_eq_some_iff.mp hback1
    have hlen : ys.length = c.maxItems.toNat := by
      have h1 : (c.elems.length :: c.lruList).length = ys.length + 1 := by
        rw [hys, List.length_append, List.length_singleton]
      rw [List.length_cons] at h1
      omega
    refine ⟨?_, by rw [hs]; rfl, ?_⟩
    · rw [hs]
      show (c.elems.length :: c.lruList).erase back = _
      rw [hys] at hnd ⊢
      have hnot : back ∉ ys := by
        intro hm
        exact (List.nodup_append.mp hnd).2.2 hm (List.mem_singleton_self _)
      rw [List.erase_append_right _ hnot, List.take_left' hlen]
      simp
    · intro k1 hne hk1
      rw [hs, LRUCache.removed_lookup]
      split
      · rfl
      · rw [c.pushed_lookup, if_neg hne]; exact hk1
  · have hs := c.Set_miss_keep k v now hl hc
    refine ⟨?_, by rw [hs]; rfl, ?_⟩
    · rw [hs]
      show c.elems.length :: c.lruList = _
      rw [List.take_of_length_le]
      rw [List.length_cons]
      omega
    · intro k1 hne hk1
      rw [hs, c.pushed_lookup, if_neg hne]; exact hk1

theorem LRUCache.setAll_spec {α : Type} (entries : List (String × Option α × Int)) :
    ∀ c : LRUCache α, c.Consistent → (c.lruList.length : Int) ≤ c.maxItems →
      (entries.map (fun e => e.1)).Nodup →
      (∀ e, e ∈ entries → c.cache.lookup e.1 = none) →
      (c.run (LRUOp.setAll entries)).lruList
        = ((List.range' c.elems.length entries.length).reverse ++ c.lruList).take
            c.maxItems.toNat ∧
      (c.run (LRUOp.setAll entries)).elems
        = c.elems ++ entries.map
            (fun e => { key := e.1, value := e.2.1, expireAt := e.2.2 + c.expireTime }) := by
  induction entries with
  | nil =>
    intro c _ hcap _ _
    constructor
    · show c.lruList = List.take _ ([] ++ c.lruList)
      rw [List.nil_append, List.take_of_length_le]
      omega
    · show c.elems = c.elems ++ []
      rw [List.append_nil]
  | cons e es ih =>
    intro c hc hcap hnd habs
    rw [List.map_cons, List.nodup_cons] at hnd
    have hl : c.cache.lookup e.1 = none := habs e (List.mem_cons_self _ _)
    obtain ⟨s1, s2, s3⟩ := LRUCache.Set_miss_take hc hcap e.1 e.2.1 e.2.2 hl
    have hpar := c.step_params (LRUOp.Set e.1 e.2.1 e.2.2)
    have hmax : (c.Set e.1 e.2.1 e.2.2).maxItems = c.maxItems := hpar.1
    have hexp : (c.Set e.1 e.2.1 e.2.2).expireTime = c.expireTime := hpar.2
    have hc1 : (c.Set e.1 e.2.1 e.2.2).Consistent := hc.step_ok (LRUOp.Set e.1 e.2.1 e.2.2)
    have hcap1 : ((c.Set e.1 e.2.1 e.2.2).lruList.length : Int)
        ≤ (c.Set e.1 e.2.1 e.2.2).maxItems := by
      rw [hmax]
      exact LRUCache.capacity_step hc hcap (LRUOp.Set e.1 e.2.1 e.2.2)
    have habs1 : ∀ e1, e1 ∈ es → (c.Set e.1 e.2.1 e.2.2).cache.lookup e1.1 = none := by
      intro e1 he1
      apply s3 e1.1 _ (habs e1 (List.mem_cons_of_mem _ he1))
      intro heq
      exact hnd.1 (List.mem_map.mpr ⟨e1, he1, heq⟩)
    obtain ⟨r1, r2⟩ := ih (c.Set e.1 e.2.1 e.2.2) hc1 hcap1 hnd.2 habs1
    have hrun : c.run (LRUOp.setAll (e :: es))
        = (c.Set e.1 e.2.1 e.2.2).run (LRUOp.setAll es) := rfl
    rw [hrun]
    constructor
    · rw [r1, s1, s2, hmax, List.length_append, List.length_singleton, List.length_cons,
        List.range'_succ, List.reverse_cons, List.append_assoc, List.singleton_append,
        List.take_append_eq_append_take, List.take_take,
        @List.take_append_eq_append_take _ _ (c.elems.length :: c.lruList)]
      congr 2
      omega
    · rw [r2, s2, hexp, List.map_cons, List.append_assoc, List.singleton_append]

theorem LRUCache.keyAt_appended {α : Type} (c c1 : LRUCache α)
    (entries : List (String × Option α × Int)) (e0 : Int) (q : Nat)
    (helems : c1.elems = c.elems ++ entries.map
      (fun e => ({ key := e.1, value := e.2.1, expireAt := e.2.2 + e0 } : CacheItem α)))
    (h1 : c.elems.length ≤ q) (h2 : q < c.elems.length + entries.length) :
    ∃ e, e ∈ entries ∧ c1.keyAt q = some e.1 := by
  unfold LRUCache.keyAt
  rw [helems, List.getElem?_append_right h1, List.getElem?_map]
  have hlt : q - c.elems.length < entries.length := by omega
  refine ⟨entries[q - c.elems.length], List.getElem_mem _, ?_⟩
  rw [List.getElem?_eq_getElem hlt]
  rfl

theorem LRUCache.keyAt_prefix {α : Type} (c c1 : LRUCache α) (extra : List (CacheItem α))
    (q : Nat) (helems : c1.elems = c.elems ++ extra) (h : q < c.elems.length) :
    c1.keyAt q = c.keyAt q ∧ c1.elems[q]? = c.elems[q]? := by
  unfold LRUCache.keyAt
  rw [helems, List.getElem?_append_left h]
  exact ⟨rfl, rfl⟩

/-- C17 (LRU recency law, untouched key is evicted): in every state reached from a new LRU
cache with `maxItems >= 1` whose index maps `k` to node `p`, after `Set` on `maxItems`
pairwise distinct keys, all different from `k` and none already present (so `k` is neither
read nor set in between), `k` is no longer in the index, node `p` is no longer in the
list, no linked node carries `k`, and `Get(k)` returns `(nil, false)`. -/
theorem C17_untouched_key_is_evicted {α : Type} (maxItems expireTime cleanTime : Int)
    (ops : List (LRUOp α)) (k : String) (p : Nat)
    (entries : List (String × Option α × Int)) (now : Int)
    (hm : 1 ≤ maxItems)
    (hk : ((NewLRUCache maxItems expireTime cleanTime : LRUCache α).run ops).cache.lookup k
      = some p)
    (hnd : (entries.map (fun e => e.1)).Nodup)
    (hnew : ∀ e, e ∈ entries → e.1 ≠ k ∧
      ((NewLRUCache maxItems expireTime cleanTime : LRUCache α).run ops).cache.lookup e.1 = none)
    (hlen : (entries.length : Int) = maxItems) :
    (((NewLRUCache maxItems expireTime cleanTime : LRUCache α).run ops).run
        (LRUOp.setAll entries)).cache.lookup k = none ∧
    p ∉ (((NewLRUCache maxItems expireTime cleanTime : LRUCache α).run ops).run
        (LRUOp.setAll entries)).lruList ∧
    (∀ q, q ∈ (((NewLRUCache maxItems expireTime cleanTime : LRUCache α).run ops).run
        (LRUOp.setAll entries)).lruList →
      (((NewLRUCache maxItems expireTime cleanTime : LRUCache α).run ops).run
        (LRUOp.setAll entries)).keyAt q ≠ some k) ∧
    (((NewLRUCache maxItems expireTime cleanTime : LRUCache α).run ops).run
        (LRUOp.setAll entries)).Get k now
      = (none, false, ((NewLRUCache maxItems expireTime cleanTime : LRUCache α).run ops).run
          (LRUOp.setAll entries)) := by
  obtain ⟨hc, hcap0⟩ := @LRUCache.reachable_invariants α maxItems expireTime cleanTime ops
    (by omega)
  have hmax : ((NewLRUCache maxItems expireTime cleanTime : LRUCache α).run ops).maxItems
      = maxItems := (LRUCache.run_params ops _).1
  generalize (NewLRUCache maxItems expireTime cleanTime : LRUCache α).run ops = c at *
  have hcap : (c.lruList.length : Int) ≤ c.maxItems := by rw [hmax]; exact hcap0
  obtain ⟨hlist, helems⟩ := LRUCache.setAll_spec entries c hc hcap hnd
    (fun e he => (hnew e he).2)
  have hfin := LRUCache.Consistent.run_ok (LRUOp.setAll entries) c hc
  have hlist1 : (c.run (LRUOp.setAll entries)).lruList
      = (List.range' c.elems.length entries.length).reverse := by
    rw [hlist]
    apply List.take_left'
    rw [List.length_reverse, List.length_range', hmax]
    omega
  have hmemq : ∀ q, q ∈ (c.run (LRUOp.setAll entries)).lruList →
      c.elems.length ≤ q ∧ q < c.elems.length + entries.length := by
    intro q hq
    rw [hlist1, List.mem_reverse, List.mem_range'_1] at hq
    exact hq
  have hkeys : ∀ q, q ∈ (c.run (LRUOp.setAll entries)).lruList →
      (c.run (LRUOp.setAll entries)).keyAt q ≠ some k := by
    intro q hq hkq
    obtain ⟨e, he, hke⟩ := LRUCache.keyAt_appended c (c.run (LRUOp.setAll entries)) entries
      c.expireTime q helems (hmemq q hq).1 (hmemq q hq).2
    rw [hke] at hkq
    exact (hnew e he).1 (Option.some.inj hkq)
  have hnone : (c.run (LRUOp.setAll entries)).cache.lookup k = none := by
    cases hl : (c.run (LRUOp.setAll entries)).cache.lookup k with
    | none => rfl
    | some q =>
      obtain ⟨h1, h2⟩ := hfin.index_to_list k q hl
      exact absurd h2 (hkeys q h1)
  refine ⟨hnone, ?_, hkeys, LRUCache.Get_miss _ k now (Or.inl hnone)⟩
  intro hp
  have := (hmemq p hp).1
  have := hc.mem_lt p (hc.index_to_list k p hk).1
  omega

/-- Witness for C17: capacity 2 holding `k` and `a`; two new keys `x`, `y` are set. -/
theorem C17_untouched_key_is_evicted_witness :
    (((NewLRUCache 2 10 10 : LRUCache Nat).run
        [LRUOp.Set "k" (some 1) 0, LRUOp.Set "a" (some 2) 1]).run
        (LRUOp.setAll [("x", some 3, 2), ("y", some 4, 3)])).cache.lookup "k" = none :=
  (C17_untouched_key_is_evicted 2 10 10
    [LRUOp.Set "k" (some 1) 0, LRUOp.Set "a" (some 2) 1] "k" 0
    [("x", some 3, 2), ("y", some 4, 3)] 4 (by decide) (by decide) (by decide)
    (by
      intro e he
      simp only [List.mem_cons, List.mem_singleton, List.not_mem_nil, or_false] at he
      rcases he with rfl | rfl <;> exact ⟨by decide, by decide⟩)
    (by decide)).1

/-- C16, counterexample: capacity 2 holding `a` and `k`; `Get("k")` succeeds, then the two
(`maxItems`) new keys `x` and `y` are set; `k` is evicted and `Get("k")` reports
`found = false`, although it is read within its TTL. -/
theorem C16_promoted_key_evicted_by_maxItems_inserts :
    (((NewLRUCache 2 10 10 : LRUCache Nat).run
        [LRUOp.Set "a" (some 1) 0, LRUOp.Set "k" (some 2) 1]).Get "k" 2).2.1 = true ∧
    ((((NewLRUCache 2 10 10 : LRUCache Nat).run
        [LRUOp.Set "a" (some 1) 0, LRUOp.Set "k" (some 2) 1]).Get "k" 2).2.2.run
        (LRUOp.setAll [("x", some 3, 3), ("y", some 4, 4)])).cache.lookup "k" = none ∧
    (((((NewLRUCache 2 10 10 : LRUCache Nat).run
        [LRUOp.Set "a" (some 1) 0, LRUOp.Set "k" (some 2) 1]).Get "k" 2).2.2.run
        (LRUOp.setAll [("x", some 3, 3), ("y", some 4, 4)])).Get "k" 5).2.1 = false := by
  refine ⟨by decide, by decide, by decide⟩

/-- C16 as amended (LRU recency law, promoted key survives): in every state reached from a
new LRU cache with capacity `maxItems`, if the index maps `k` to node `p` holding `item`
and `Get(k)` succeeds (the item is not expired at `now`), then inserting fewer than
`maxItems` pairwise distinct new keys (none equal to `k`, none already present) with `Set`
immediately afterwards does not evict `k`: `k` is still indexed at `p`, `p` is still
linked, and `Get(k)` at any time `now2` at which the item is not expired returns
`(item.value, true)`. -/
theorem C16_promoted_key_survives {α : Type} (maxItems expireTime cleanTime : Int)
    (ops : List (LRUOp α)) (k : String) (p : Nat) (item : CacheItem α) (now now2 : Int)
    (entries : List (String × Option α × Int))
    (hl : ((NewLRUCache maxItems expireTime cleanTime : LRUCache α).run ops).cache.lookup k
      = some p)
    (hi : ((NewLRUCache maxItems expireTime cleanTime : LRUCache α).run ops).elems[p]?
      = some item)
    (hx : item.isExpired now = false)
    (hnd : (entries.map (fun e => e.1)).Nodup)
    (hnew : ∀ e, e ∈ entries → e.1 ≠ k ∧
      ((NewLRUCache maxItems expireTime cleanTime : LRUCache α).run ops).cache.lookup e.1 = none)
    (hlen : (entries.length : Int) < maxItems)
    (hx2 : item.isExpired now2 = false) :
    (((NewLRUCache maxItems expireTime cleanTime : LRUCache α).run ops).Get k now).2.1 = true ∧
    ((((NewLRUCache maxItems expireTime cleanTime : LRUCache α).run ops).Get k now).2.2.run
        (LRUOp.setAll entries)).cache.lookup k = some p ∧
    p ∈ ((((NewLRUCache maxItems expireTime cleanTime : LRUCache α).run ops).Get k
        now).2.2.run (LRUOp.setAll entries)).lruList ∧
    (((((NewLRUCache maxItems expireTime cleanTime : LRUCache α).run ops).Get k now).2.2.run
        (LRUOp.setAll entries)).Get k now2).1 = item.value ∧
    (((((NewLRUCache maxItems expireTime cleanTime : LRUCache α).run ops).Get k now).2.2.run
        (LRUOp.setAll entries)).Get k now2).2.1 = true := by
  obtain ⟨hc, hcap0⟩ := @LRUCache.reachable_invariants α maxItems expireTime cleanTime ops
    (by omega)
  have hmax : ((NewLRUCache maxItems expireTime cleanTime : LRUCache α).run ops).maxItems
      = maxItems := (LRUCache.run_params ops _).1
  generalize (NewLRUCache maxItems expireTime cleanTime : LRUCache α).run ops = c at *
  have hg := c.Get_hit k now p item hl hi hx
  rw [hg]
  have hpm := hc.index_to_list k p hl
  have hc1 : ({ c with lruList := listMoveToFront c.lruList p } : LRUCache α).Consistent :=
    hc.touch p
  have hcap1 : ((({ c with lruList := listMoveToFront c.lruList p }
      : LRUCache α).lruList.length : Int))
      ≤ ({ c with lruList := listMoveToFront c.lruList p } : LRUCache α).maxItems := by
    show ((listMoveToFront c.lruList p).length : Int) ≤ c.maxItems
    rw [length_listMoveToFront, hmax]; exact hcap0
  obtain ⟨hlist, helems⟩ := LRUCache.setAll_spec entries
    ({ c with lruList := listMoveToFront c.lruList p } : LRUCache α) hc1 hcap1 hnd
    (fun e he => (hnew e he).2)
  have hfin := LRUCache.Consistent.run_ok (LRUOp.setAll entries) _ hc1
  generalize ({ c with lruList := listMoveToFront c.lruList p } : LRUCache α).run
    (LRUOp.setAll entries) = fin at *
  have hlist1 : fin.lruList
      = ((List.range' c.elems.length entries.length).reverse ++ (p :: c.lruList.erase p)).take
          c.maxItems.toNat := by
    rw [hlist]
    show List.take _ (_ ++ listMoveToFront c.lruList p) = _
    rw [listMoveToFront_of_mem _ p hpm.1]
  have hpin : p ∈ fin.lruList := by
    rw [hlist1]
    have hsplit : (List.range' c.elems.length entries.length).reverse ++ (p :: c.lruList.erase p)
        = ((List.range' c.elems.length entries.length).reverse ++ [p]) ++ c.lruList.erase p := by
      rw [List.append_assoc, List.singleton_append]
    rw [hsplit, List.take_append_eq_append_take]
    apply List.mem_append_left
    rw [List.take_of_length_le]
    · exact List.mem_append_right _ (List.mem_singleton_self p)
    · rw [List.length_append, List.length_reverse, List.length_range', List.length_singleton,
        hmax]
      omega
  have hplt : p < c.elems.length := hc.mem_lt p hpm.1
  have hpre := LRUCache.keyAt_prefix c fin _ p helems hplt
  have hlk : fin.cache.lookup k = some p := by
    obtain ⟨k1, h1, h2⟩ := hfin.list_to_index p hpin
    rw [hpre.1, hpm.2] at h1
    rw [Option.some.inj h1]
    exact h2
  have hitem : fin.elems[p]? = some item := by rw [hpre.2]; exact hi
  rw [fin.Get_hit k now2 p item hlk hitem hx2]
  exact ⟨rfl, hlk, hpin, rfl, rfl⟩

/-- Witness for C16: capacity 2 holding `a` and `k`; `Get("k")` succeeds, then one new key
`x` is set; `k` is still indexed at node 1. -/
theorem C16_promoted_key_survives_witness :
    ((((NewLRUCache 2 10 10 : LRUCache Nat).run
        [LRUOp.Set "a" (some 1) 0, LRUOp.Set "k" (some 2) 1]).Get "k" 2).2.2.run
        (LRUOp.setAll [("x", some 3, 3)])).cache.lookup "k" = some 1 :=
  (C16_promoted_key_survives 2 10 10
    [LRUOp.Set "a" (some 1) 0, LRUOp.Set "k" (some 2) 1] "k" 1
    { key := "k", value := some 2, expireAt := 11 } 2 5 [("x", some 3, 3)]
    (by decide) (by decide) (by decide) (by decide)
    (by
      intro e he
      simp only [List.mem_singleton] at he
      subst he
      exact ⟨by decide, by decide⟩)
    (by decide) (by decide)).2.1

/-! ## Construction, and behaviour under concurrent calls -/

theorem New_janitor_none {α : Type} (de ci : Int) (m : CacheMap (Item α)) (h : ci ≤ 0) :
    (New de ci m : cache α).janitor = none ∧ (New de ci m : cache α).background = none := by
  have hn : ¬ ci > 0 := by omega
  unfold cache.background New
  simp only [if_neg hn]
  exact ⟨rfl, rfl⟩

theorem New_janitor_runs {α : Type} (de ci : Int) (m : CacheMap (Item α)) (h : 0 < ci) :
    (New de ci m : cache α).background = some (Except.ok ci) := by
  have hn : ¬ ci ≤ 0 := by omega
  unfold cache.background New
  simp only [gt_iff_lt, if_pos h]
  show some (NewTicker ci) = _
  unfold NewTicker
  rw [if_neg hn]

/-- C21 (construction guards its configuration): the claim fails for `NewLRUCache`.
`New` guards its interval (with `cleanupInterval = 0` no janitor is started), but
`NewLRUCache(10, 1000, 0)` starts the GC goroutine unconditionally and its ticker
creation panics on the non-positive `cleanTime`; and `NewLRUCache(-1, 1000, 1000)` is
accepted as it is, a cache whose list length 0 exceeds its capacity -1, before and after
a `Set`. -/
theorem C21_lru_constructor_unguarded :
    (New 0 0 (CacheMap.rwm NewRwmMap) : cache Nat).background = none ∧
    (NewLRUCache 10 1000 0 : LRUCache Nat).startGC
      = Except.error "non-positive interval for NewTicker" ∧
    (NewLRUCache (-1) 1000 1000 : LRUCache Nat).maxItems = -1 ∧
    (((NewLRUCache (-1) 1000 1000 : LRUCache Nat).lruList.length : Int)
      > (NewLRUCache (-1) 1000 1000 : LRUCache Nat).maxItems) ∧
    ((((NewLRUCache (-1) 1000 1000 : LRUCache Nat).Set "a" (some 1) 0).lruList.length : Int)
      > ((NewLRUCache (-1) 1000 1000 : LRUCache Nat).Set "a" (some 1) 0).maxItems) := by
  refine ⟨rfl, rfl, rfl, by decide, by decide⟩

/-- C22 (sweep is safe under concurrency): the claim fails for the `RwmMap` backend.
`DeleteExpired` calls `Range`, which iterates `m.items` without taking the mutex, while
`Set` and `Delete` write `m.items` under the exclusive lock: the iteration of a sweep and
the write of a concurrent `Set` or `Delete` (also the `Delete` of a second sweep) are not
kept apart.  `Get` against `Set`, which both lock, are kept apart. -/
theorem C22_rwm_sweep_races_with_writers :
    MapMethod.Range ∈ (Op.DeleteExpired 0 : Op Nat).backendCalls ∧
    MapMethod.Set ∈ (Op.Set "k" (some 1) 0 0 : Op Nat).backendCalls ∧
    MapMethod.Delete ∈ (Op.DeleteExpired 0 : Op Nat).backendCalls ∧
    RwmMap.lockMode MapMethod.Range = LockMode.unlocked ∧
    RwmMap.races MapMethod.Range MapMethod.Set = true ∧
    RwmMap.races MapMethod.Range MapMethod.Delete = true ∧
    RwmMap.races MapMethod.Get MapMethod.Set = false := by
  decide

theorem LRUCache.GetInterleaved_nil {α : Type} (c : LRUCache α) (key : String) (now : Int) :
    c.GetInterleaved key now [] = c.Get key now := by
  unfold LRUCache.GetInterleaved LRUCache.getCheck LRUCache.Get
  cases c.cache.lookup key with
  | none => rfl
  | some ele =>
    rcases hi : c.elems[ele]? with _ | item
    · simp only [hi]
    · simp only [hi]
      cases hx : item.isExpired now
      · simp [LRUCache.getPromote, LRUCache.run, hi]
      · simp

/-- C23 (LRU Get and the read-then-upgrade lock): the claim fails on the code.  `Get`
checks the hit under `RLock`, releases it, and promotes under `Lock` without looking at
the index again.  With `"k"` set at time 0 (TTL 10) and a `Delete("k")` of another
goroutine between the two critical sections, `Get("k")` at time 5 returns `(1, true)`
although `"k"` is in neither the index nor the list when it promotes; the same happens
when a GC pass reading the clock at 20 removes the entry in between. -/
theorem C23_get_returns_removed_entry :
    (((NewLRUCache 10 10 10 : LRUCache Nat).Set "k" (some 1) 0).GetInterleaved "k" 5
        [LRUOp.Delete "k"]).1 = some 1 ∧
    (((NewLRUCache 10 10 10 : LRUCache Nat).Set "k" (some 1) 0).GetInterleaved "k" 5
        [LRUOp.Delete "k"]).2.1 = true ∧
    (((NewLRUCache 10 10 10 : LRUCache Nat).Set "k" (some 1) 0).GetInterleaved "k" 5
        [LRUOp.Delete "k"]).2.2.cache.lookup "k" = none ∧
    (((NewLRUCache 10 10 10 : LRUCache Nat).Set "k" (some 1) 0).GetInterleaved "k" 5
        [LRUOp.Delete "k"]).2.2.lruList = [] ∧
    (((NewLRUCache 10 10 10 : LRUCache Nat).Set "k" (some 1) 0).run
        [LRUOp.Delete "k"]).cache.lookup "k" = none ∧
    (((NewLRUCache 10 10 10 : LRUCache Nat).Set "k" (some 1) 0).GetInterleaved "k" 5
        [LRUOp.GC (fun _ => 20)]).2.1 = true ∧
    (((NewLRUCache 10 10 10 : LRUCache Nat).Set "k" (some 1) 0).GetInterleaved "k" 5
        [LRUOp.GC (fun _ => 20)]).2.2.cache.lookup "k" = none := by
  refine ⟨by decide, by decide, by decide, by decide, by decide, by decide, by decide⟩

end GoCache
